import Mathlib

/-!
Shallow embedding of the ghost-canvas document state engine
(the `StateManager` of `src/state/manager.js`, the schema and the
`DebouncedWriter` of `src/state/schema.js` / `src/state/writer.js`) and
proofs checking the specification claims against it.

Modelling conventions:
* JavaScript objects are association lists `List (String × α)` (insertion
  order preserved, as `Object.entries` iterates); `Object.assign` /
  property assignment is `setS`, `delete` is `eraseS`.
* JS `undefined`/`null` become `Option`; thrown errors become `Except Err`
  (every `throw` in the source happens before any mutation, so an error
  result leaving the state unchanged is faithful).
* Emitted `delta` events are returned as a list of event kinds.
* Recursion that JavaScript performs on the object graph
  (`_deleteRecursive`, `_updatePageId`) or on strings (regex scanning,
  the `\uXXXX` decoder) gets explicit fuel; call sites pass fuel that is
  never exhausted on the inputs the theorems quantify over.
-/

deriving instance DecidableEq for Except

namespace GhostCanvas

/-- Error taxonomy of the engine: thrown `... not found` errors are
`notFound`; structural refusals (`Cannot delete the last page`,
`Cannot delete root element`, `Cannot move root element`) are
`invalidOperation`. -/
inductive Err where
  | notFound
  | invalidOperation
deriving DecidableEq, Repr

/-- Kinds of the `delta` events emitted by `StateManager.emit`. -/
inductive DeltaKind where
  | elementCreated
  | elementUpdated
  | elementDeleted
  | elementMoved
  | pageCreated
  | pageDeleted
  | pageRenamed
  | pageActivated
  | stylesSet
  | stylesBatch
  | stylesDeleted
  | tokensSet
  | viewportSet
  | designFull
deriving DecidableEq, Repr

/-! ### Association-list primitives (JS object semantics) -/

/-- Property read `obj[k]`: first binding of the key wins. -/
def getS {α : Type} : List (String × α) → String → Option α
  | [], _ => none
  | kv :: rest, k => if kv.1 = k then some kv.2 else getS rest k

/-- Property write `obj[k] = v`: replaces the value in place when the key
exists, otherwise appends the binding (JS insertion order). -/
def setS {α : Type} (m : List (String × α)) (k : String) (v : α) :
    List (String × α) :=
  if (getS m k).isSome then
    m.map (fun kv => if kv.1 = k then (kv.1, v) else kv)
  else
    m ++ [(k, v)]

/-- In-place update of one key's value (JS mutation through an object
reference held by the engine). Absent keys are untouched. -/
def updS {α : Type} (m : List (String × α)) (k : String) (f : α → α) :
    List (String × α) :=
  m.map (fun kv => if kv.1 = k then (kv.1, f kv.2) else kv)

/-- Property deletion `delete obj[k]` (order of the remaining keys kept). -/
def eraseS {α : Type} (m : List (String × α)) (k : String) :
    List (String × α) :=
  m.filter (fun kv => kv.1 ≠ k)

/-- `Set.add`: appends when absent, keeps insertion order. -/
def addSet (l : List String) (x : String) : List String :=
  if x ∈ l then l else l ++ [x]

/-! ### decodeUnicodeEscapes (manager.js lines 8-13) -/

/-- Hex digit test of the regex class `[0-9a-fA-F]`. -/
def isHexDigit (c : Char) : Bool :=
  c.isDigit || ('a' ≤ c && c ≤ 'f') || ('A' ≤ c && c ≤ 'F')

/-- Numeric value of one hex digit (`parseInt(hex, 16)` digitwise). -/
def hexVal (c : Char) : Nat :=
  if c.isDigit then c.toNat - '0'.toNat
  else if 'a' ≤ c then c.toNat - 'a'.toNat + 10
  else c.toNat - 'A'.toNat + 10

/-- Substring test `str.includes('\u')`. -/
def hasBackslashU : List Char → Bool
  | '\\' :: 'u' :: _ => true
  | _ :: rest => hasBackslashU rest
  | [] => false

/-- One left-to-right, non-overlapping pass of
`str.replace(/\\u([0-9a-fA-F]{4})/g, (_, hex) => String.fromCharCode(...))`.
After a failed match attempt the scan advances one character, exactly as
the JS regex engine does.  Fuel is the length of the scanned list. -/
def decodeScanF : Nat → List Char → List Char
  | 0, l => l
  | fuel + 1, l =>
    match l with
    | '\\' :: 'u' :: h1 :: h2 :: h3 :: h4 :: rest =>
      if isHexDigit h1 && isHexDigit h2 && isHexDigit h3 && isHexDigit h4 then
        Char.ofNat (((hexVal h1 * 16 + hexVal h2) * 16 + hexVal h3) * 16 + hexVal h4)
          :: decodeScanF fuel rest
      else
        '\\' :: decodeScanF fuel ('u' :: h1 :: h2 :: h3 :: h4 :: rest)
    | c :: rest => c :: decodeScanF fuel rest
    | [] => []

/-- `decodeUnicodeEscapes(str)` for a string argument; the
`!str || !str.includes('\\u')` early return is kept. -/
def decodeUnicodeEscapes (s : String) : String :=
  if s.data.isEmpty then s
  else if !hasBackslashU s.data then s
  else String.mk (decodeScanF s.data.length s.data)

/-! ### The word-boundary token regex (manager.js lines 614-616)

`new RegExp(`(?<![a-zA-Z0-9#])${escaped}(?![a-zA-Z0-9])`, 'g')` — the old
token value matched literally (it is regex-escaped), refused when the
character immediately before is alphanumeric or `#`, or the character
immediately after is alphanumeric.  The scan is left-to-right and
non-overlapping; lookbehind always inspects the original string. -/

/-- Character class `[a-zA-Z0-9]` of the two lookarounds. -/
def isWordChar (c : Char) : Bool :=
  c.isAlpha || c.isDigit

/-- Lookbehind `(?<![a-zA-Z0-9#])` against the previous original char. -/
def prevBlocked : Option Char → Bool
  | none => false
  | some c => isWordChar c || c = '#'

/-- Lookahead `(?![a-zA-Z0-9])` against the rest of the original string. -/
def nextBlocked : List Char → Bool
  | [] => false
  | c :: _ => isWordChar c

/-- Does the global regex find at least one match (`regex.test(val)`)?
`prev` is the original character just before the scan position. -/
def hasMatchScanF (old : List Char) : Nat → Option Char → List Char → Bool
  | 0, _, _ => false
  | _ + 1, prev, [] => old.isEmpty && !prevBlocked prev
  | fuel + 1, prev, c :: rest =>
    (old.isPrefixOf (c :: rest) && !prevBlocked prev
      && !nextBlocked ((c :: rest).drop old.length))
    || hasMatchScanF old fuel (some c) rest

/-- Global replacement `val.replace(regex, newValue)`.  On a match the scan
continues right after the matched region; an empty pattern matches between
characters and the regex engine then advances one character.  Fuel is the
length of the scanned list plus one. -/
def replaceScanF (old new : List Char) : Nat → Option Char → List Char → List Char
  | 0, _, l => l
  | _ + 1, prev, [] =>
    if old.isEmpty && !prevBlocked prev then new else []
  | fuel + 1, prev, c :: rest =>
    if !old.isEmpty && old.isPrefixOf (c :: rest) && !prevBlocked prev
        && !nextBlocked ((c :: rest).drop old.length) then
      new ++ replaceScanF old new fuel old.getLast? ((c :: rest).drop old.length)
    else if old.isEmpty && !prevBlocked prev && !nextBlocked (c :: rest) then
      new ++ c :: replaceScanF old new fuel (some c) rest
    else
      c :: replaceScanF old new fuel (some c) rest

/-- `regex.test(val)` on strings. -/
def hasTokenMatch (old v : String) : Bool :=
  hasMatchScanF old.data (v.data.length + 1) none v.data

/-- `val.replace(regex, newValue)` on strings. -/
def replaceTokenValue (old new v : String) : String :=
  String.mk (replaceScanF old.data new.data (v.data.length + 1) none v.data)

/-! ### Data model (schema.js) -/

/-- Style properties of one selector: property → value. -/
abbrev StyleProps := List (String × String)

/-- All style rules: selector → properties. -/
abbrev Styles := List (String × StyleProps)

/-- Design tokens: category → (name → value). -/
abbrev Tokens := List (String × List (String × String))

/-- `ElementSchema`: one design node. -/
structure Element where
  id : String
  tag : String
  classes : List String
  attributes : List (String × String)
  textContent : Option String
  children : List String
  parentId : Option String
  pageId : String
deriving DecidableEq, Repr

/-- `PageSchema`. -/
structure Page where
  id : String
  name : String
  rootId : String
  styles : Styles
deriving DecidableEq, Repr

/-- `ViewportSchema`. -/
structure Viewport where
  device : String
  width : Nat
  height : Nat
deriving DecidableEq, Repr

/-- `ProjectSchema`. -/
structure Project where
  name : String
  activePageId : String
  viewport : Viewport
  designType : String
deriving DecidableEq, Repr

/-- Dirty partitions tracked by `StateManager.dirty` for the Write
Coalescer (`project`, `styles`, one partition per page, deleted pages). -/
structure Dirty where
  project : Bool
  styles : Bool
  pages : List String
  deletedPages : List String
deriving DecidableEq, Repr

/-- A clean dirty set. -/
def Dirty.clean : Dirty := ⟨false, false, [], []⟩

/-- `DesignStateSchema` plus the manager's dirty tracking. -/
structure St where
  project : Project
  pages : List (String × Page)
  elements : List (String × Element)
  styles : Styles
  designTokens : Tokens
  dirty : Dirty
deriving DecidableEq, Repr

/-! ### Element operations (manager.js lines 199-398) -/

/-- Splice index of `arr.splice(i, 0, x)`: negative indices count from the
end clamped at zero, large indices clamp to the length. -/
def spliceIndex (len : Nat) (i : Int) : Nat :=
  if i < 0 then ((len : Int) + i).toNat else min i.toNat len

/-- `arr.splice(i, 0, x)` as a pure insertion. -/
def insertAt {α : Type} (l : List α) (i : Int) (x : α) : List α :=
  l.take (spliceIndex l.length i) ++ x :: l.drop (spliceIndex l.length i)

/-- Arguments of `createElement` (undefined optionals are `none`). -/
structure CreateArgs where
  tag : String
  parentId : String
  classes : Option (List String)
  attributes : Option (List (String × String))
  textContent : Option String
  insertIndex : Option Int
deriving DecidableEq, Repr

/-- `StateManager.createElement` (lines 201-232).  `freshId` stands for the
`nanoid(8)` result of `generateId()`. -/
def createElement (s : St) (freshId : String) (a : CreateArgs) :
    Except Err (Element × St × List DeltaKind) :=
  match getS s.elements a.parentId with
  | none => .error .notFound
  | some parent =>
    let el : Element :=
      { id := freshId
        tag := a.tag
        classes := a.classes.getD []
        attributes := a.attributes.getD []
        textContent :=
          match a.textContent with
          | none => none
          | some t =>
            let d := decodeUnicodeEscapes t
            if d = "" then none else some d
        children := []
        parentId := some a.parentId
        pageId := parent.pageId }
    let els1 := setS s.elements freshId el
    let els2 := updS els1 a.parentId fun p =>
      { p with children :=
          match a.insertIndex with
          | some i => insertAt p.children i freshId
          | none => p.children ++ [freshId] }
    .ok (el,
      { s with
        elements := els2
        dirty := { s.dirty with pages := addSet s.dirty.pages parent.pageId } },
      [.elementCreated])

/-- Arguments of `updateElement`; the outer `Option` is JS `undefined`
(field untouched), the inner one distinguishes `null` from a string for
`textContent`. -/
structure UpdateArgs where
  id : String
  tag : Option String
  classes : Option (List String)
  attributes : Option (List (String × String))
  textContent : Option (Option String)
deriving DecidableEq, Repr

/-- `StateManager.updateElement` (lines 234-251): `attributes` merges
shallowly, the other fields replace; `textContent` is decoded. -/
def updateElement (s : St) (a : UpdateArgs) :
    Except Err (Element × St × List DeltaKind) :=
  match getS s.elements a.id with
  | none => .error .notFound
  | some el0 =>
    let el1 := match a.tag with
      | some t => { el0 with tag := t }
      | none => el0
    let el2 := match a.classes with
      | some cs => { el1 with classes := cs }
      | none => el1
    let el3 := match a.attributes with
      | some attrs =>
        { el2 with attributes := attrs.foldl (fun acc kv => setS acc kv.1 kv.2) el2.attributes }
      | none => el2
    let el4 := match a.textContent with
      | some tc => { el3 with textContent := tc.map decodeUnicodeEscapes }
      | none => el3
    .ok (el4,
      { s with
        elements := updS s.elements a.id fun _ => el4
        dirty := { s.dirty with pages := addSet s.dirty.pages el0.pageId } },
      [.elementUpdated])

/-- `StateManager._deleteRecursive` (lines 275-284): recurse into the
children first, then delete the node's own entry.  Fuel bounds the
recursion depth (the JS function does not terminate on a cyclic graph). -/
def deleteRecursive : Nat → List (String × Element) → String → List (String × Element)
  | 0, m, _ => m
  | fuel + 1, m, id =>
    match getS m id with
    | none => m
    | some el =>
      (el.children.foldl (fun acc c => deleteRecursive fuel acc c) m).filter
        (fun kv => kv.1 ≠ id)

/-- `StateManager.deleteElement` (lines 253-273).  The root check
`!element.parentId` is JS truthiness, so an empty-string parent id is also
refused. -/
def deleteElement (s : St) (id : String) :
    Except Err (St × List DeltaKind) :=
  match getS s.elements id with
  | none => .error .notFound
  | some el =>
    match el.parentId with
    | none => .error .invalidOperation
    | some parentId =>
      if parentId = "" then .error .invalidOperation
      else
        let els1 := deleteRecursive s.elements.length s.elements id
        let els2 :=
          match getS els1 parentId with
          | none => els1
          | some _ => updS els1 parentId fun p =>
              { p with children := p.children.filter (· ≠ id) }
        .ok ({ s with
                elements := els2
                dirty := { s.dirty with pages := addSet s.dirty.pages el.pageId } },
             [.elementDeleted])

/-- `StateManager._updatePageId` (lines 329-336): restamp `pageId` on a
subtree.  Fuel as for `deleteRecursive`. -/
def updatePageIdRec : Nat → List (String × Element) → String → String → List (String × Element)
  | 0, m, _, _ => m
  | fuel + 1, m, id, pid =>
    match getS m id with
    | none => m
    | some el =>
      el.children.foldl (fun acc c => updatePageIdRec fuel acc c pid)
        (updS m id fun e => { e with pageId := pid })

/-- `StateManager.moveElement` (lines 286-327): detach from the old parent,
attach to the new one, restamp `pageId` when crossing pages.  Note that the
source has no self-parenting or descendant check. -/
def moveElement (s : St) (id newParentId : String) (insertIndex : Option Int) :
    Except Err (Element × St × List DeltaKind) :=
  match getS s.elements id with
  | none => .error .notFound
  | some el =>
    match el.parentId with
    | none => .error .invalidOperation
    | some oldParentId =>
      if oldParentId = "" then .error .invalidOperation
      else
        match getS s.elements newParentId with
        | none => .error .notFound
        | some newParent =>
          let m1 := updS s.elements oldParentId fun p =>
            { p with children := p.children.filter (· ≠ id) }
          let m2 := updS m1 id fun e => { e with parentId := some newParentId }
          let m3 := updS m2 newParentId fun p =>
            { p with children :=
                match insertIndex with
                | some i => insertAt p.children i id
                | none => p.children ++ [id] }
          let oldPageId := el.pageId
          let m4 :=
            if oldPageId ≠ newParent.pageId then
              updatePageIdRec m3.length m3 id newParent.pageId
            else m3
          let pages1 := addSet s.dirty.pages oldPageId
          let pages2 :=
            if oldPageId ≠ newParent.pageId then addSet pages1 newParent.pageId
            else pages1
          .ok ((getS m4 id).getD el,
            { s with
              elements := m4
              dirty := { s.dirty with pages := pages2 } },
            [.elementMoved])

/-! ### Page operations (manager.js lines 400-535) -/

/-- `StateManager.createPage` (lines 402-434); `fresh1`/`fresh2` stand for
the two `generateId()` results. -/
def createPage (s : St) (fresh1 fresh2 name : String) :
    Except Err (Page × St × List DeltaKind) :=
  let pageId := "page-" ++ fresh1
  let rootId := "root-" ++ fresh2
  let page : Page := { id := pageId, name := name, rootId := rootId, styles := [] }
  let rootElement : Element :=
    { id := rootId
      tag := "div"
      classes := ["page-root"]
      attributes := []
      textContent := none
      children := []
      parentId := none
      pageId := pageId }
  .ok (page,
    { s with
      pages := setS s.pages pageId page
      elements := setS s.elements rootId rootElement
      dirty := { s.dirty with pages := addSet s.dirty.pages pageId } },
    [.pageCreated])

/-- `StateManager.clonePage` (lines 436-471).  `freshPage` is the
`generateId()` of the cloned page's id; `freshIds` supplies the per-element
`generateId()` results in `Object.entries` order of the source page's
elements. -/
def clonePage (s : St) (sourcePageId newName freshPage : String)
    (freshIds : List String) :
    Except Err (Page × St × List DeltaKind) :=
  match getS s.pages sourcePageId with
  | none => .error .notFound
  | some sourcePage =>
    let pageId := "page-" ++ freshPage
    let sourceKeys := (s.elements.filter (fun kv => kv.2.pageId = sourcePageId)).map (·.1)
    let idMap : List (String × String) :=
      (sourceKeys.zip (freshIds.take sourceKeys.length)).map fun kf =>
        (kf.1, if kf.1 = sourcePage.rootId then "root-" ++ kf.2 else kf.2)
    let els := idMap.foldl
      (fun acc oldNew =>
        match getS acc oldNew.1 with
        | none => acc
        | some src =>
          setS acc oldNew.2
            { src with
              id := oldNew.2
              parentId :=
                match src.parentId with
                | none => none
                | some p => if p = "" then none else getS idMap p
              children := src.children.filterMap fun cid =>
                match getS idMap cid with
                | none => none
                | some nid => if nid = "" then none else some nid
              pageId := pageId })
      s.elements
    let rootId := (getS idMap sourcePage.rootId).getD ""
    let page : Page := { id := pageId, name := newName, rootId := rootId,
                         styles := sourcePage.styles }
    .ok (page,
      { s with
        pages := setS s.pages pageId page
        elements := els
        dirty := { s.dirty with pages := addSet s.dirty.pages pageId } },
      [.designFull])

/-- `StateManager.deletePage` (lines 473-502): refuses the last page, drops
the page and every element stamped with it, reassigns the active page to
the first remaining key when needed (`Object.keys(pages)[0]`; an undefined
result is modelled as the empty string). -/
def deletePage (s : St) (pageId : String) :
    Except Err (St × List DeltaKind) :=
  match getS s.pages pageId with
  | none => .error .notFound
  | some _ =>
    if s.pages.length ≤ 1 then .error .invalidOperation
    else
      let elements := s.elements.filter (fun kv => kv.2.pageId ≠ pageId)
      let pages := eraseS s.pages pageId
      let activeHit := s.project.activePageId = pageId
      let project :=
        if activeHit then
          { s.project with activePageId := ((pages.map (·.1)).head?).getD "" }
        else s.project
      .ok ({ s with
              project := project
              pages := pages
              elements := elements
              dirty := { s.dirty with
                          project := if activeHit then true else s.dirty.project
                          deletedPages := addSet s.dirty.deletedPages pageId } },
           [.pageDeleted])

/-- `StateManager.renamePage` (lines 504-516). -/
def renamePage (s : St) (pageId name : String) :
    Except Err (Page × St × List DeltaKind) :=
  match getS s.pages pageId with
  | none => .error .notFound
  | some page =>
    let page' := { page with name := name }
    .ok (page',
      { s with
        pages := updS s.pages pageId fun _ => page'
        dirty := { s.dirty with pages := addSet s.dirty.pages pageId } },
      [.pageRenamed])

/-- `StateManager.setActivePage` (lines 526-535). -/
def setActivePage (s : St) (pageId : String) :
    Except Err (St × List DeltaKind) :=
  match getS s.pages pageId with
  | none => .error .notFound
  | some _ =>
    .ok ({ s with
            project := { s.project with activePageId := pageId }
            dirty := { s.dirty with project := true } },
         [.pageActivated])

/-! ### Style operations (manager.js lines 537-586) -/

/-- Shallow merge `{ ...(old || \x7b\x7d), ...props }`. -/
def mergeProps (old new : StyleProps) : StyleProps :=
  new.foldl (fun acc kv => setS acc kv.1 kv.2) old

/-- `StateManager.setStyles` (lines 539-552). -/
def setStyles (s : St) (selector : String) (properties : StyleProps) :
    Except Err (StyleProps × St × List DeltaKind) :=
  let merged := mergeProps ((getS s.styles selector).getD []) properties
  .ok (merged,
    { s with
      styles := setS s.styles selector merged
      dirty := { s.dirty with styles := true } },
    [.stylesSet])

/-- `StateManager.batchSetStyles` (lines 554-571): all merges applied with
one `delta:styles:batch` event. -/
def batchSetStyles (s : St) (styles : List (String × StyleProps)) :
    Except Err (St × List DeltaKind) :=
  let styles' := styles.foldl
    (fun acc sp => setS acc sp.1 (mergeProps ((getS acc sp.1).getD []) sp.2))
    s.styles
  .ok ({ s with
          styles := styles'
          dirty := { s.dirty with styles := true } },
       [.stylesBatch])

/-- `StateManager.deleteStyles` (lines 573-582). -/
def deleteStyles (s : St) (selector : String) :
    Except Err (St × List DeltaKind) :=
  match getS s.styles selector with
  | none => .error .notFound
  | some _ =>
    .ok ({ s with
            styles := eraseS s.styles selector
            dirty := { s.dirty with styles := true } },
         [.stylesDeleted])

/-! ### Design token operations (manager.js lines 588-655) -/

/-- `StateManager.setDesignTokens` (lines 590-603): creates the category on
demand, then `Object.assign`s the new pairs in. -/
def setDesignTokens (s : St) (category : String) (tokens : List (String × String)) :
    Except Err (List (String × String) × St × List DeltaKind) :=
  let current := (getS s.designTokens category).getD []
  let merged := tokens.foldl (fun acc kv => setS acc kv.1 kv.2) current
  .ok (merged,
    { s with
      designTokens := setS s.designTokens category merged
      dirty := { s.dirty with project := true } },
    [.tokensSet])

/-- `StateManager.updateTokenWithPropagation` (lines 609-655): fails when
the token is unset, is a no-op without events when old equals new, and
otherwise rewrites every style property value through the word-boundary
regex, counts the selectors that had a match, updates the token, and emits
a token delta plus a styles batch delta when any selector changed. -/
def updateTokenWithPropagation (s : St) (category key newValue : String) :
    Except Err (Nat × St × List DeltaKind) :=
  match (getS s.designTokens category).bind (fun cat => getS cat key) with
  | none => .error .notFound
  | some oldValue =>
    if oldValue = newValue then .ok (0, s, [])
    else
      let scanned := s.styles.foldl
        (fun (acc : Nat × Styles) sp =>
          let props' := sp.2.map fun pv =>
            if hasTokenMatch oldValue pv.2 then
              (pv.1, replaceTokenValue oldValue newValue pv.2)
            else pv
          let selectorChanged := sp.2.any fun pv => hasTokenMatch oldValue pv.2
          ((if selectorChanged then acc.1 + 1 else acc.1), acc.2 ++ [(sp.1, props')]))
        (0, [])
      let updatedStyles := scanned.1
      let tokens' := updS s.designTokens category fun cat => setS cat key newValue
      .ok (updatedStyles,
        { s with
          styles := scanned.2
          designTokens := tokens'
          dirty := { s.dirty with
                      project := true
                      styles := if updatedStyles > 0 then true else s.dirty.styles } },
        .tokensSet :: (if updatedStyles > 0 then [.stylesBatch] else []))

/-! ### Viewport operation (manager.js lines 671-699) -/

/-- JS `a || b` on an optional number: `0` is falsy. -/
def orFalsy (a : Option Nat) (b : Nat) : Nat :=
  match a with
  | some n => if n = 0 then b else n
  | none => b

/-- `StateManager.setViewport` (lines 671-699) with the three device
presets. -/
def setViewport (s : St) (device : Option String) (width height : Option Nat) :
    Except Err (Viewport × St × List DeltaKind) :=
  let preset : Option (Nat × Nat) :=
    match device with
    | some "mobile" => some (375, 812)
    | some "tablet" => some (768, 1024)
    | some "desktop" => some (1440, 900)
    | _ => none
  let vp : Viewport :=
    match device, preset with
    | some d, some wh =>
      { device := d, width := orFalsy width wh.1, height := orFalsy height wh.2 }
    | _, _ =>
      { device := match device with
                  | some d => if d = "" then "custom" else d
                  | none => "custom"
        width := orFalsy width s.project.viewport.width
        height := orFalsy height s.project.viewport.height }
  .ok (vp,
    { s with
      project := { s.project with viewport := vp }
      dirty := { s.dirty with project := true } },
    [.viewportSet])

/-! ### The mutating operation surface as one dispatcher (for §4.1's
"every mutating call emits exactly one delta and marks a partition dirty") -/

/-- One mutating Document Engine call together with the `generateId()`
results it consumes. -/
inductive Op where
  | createNode (freshId : String) (a : CreateArgs)
  | updateNode (a : UpdateArgs)
  | deleteNode (id : String)
  | moveNode (id newParentId : String) (insertIndex : Option Int)
  | createPage (fresh1 fresh2 name : String)
  | clonePage (sourcePageId newName freshPage : String) (freshIds : List String)
  | deletePage (pageId : String)
  | renamePage (pageId name : String)
  | setActivePage (pageId : String)
  | setStyles (selector : String) (properties : StyleProps)
  | batchSetStyles (styles : List (String × StyleProps))
  | deleteStyles (selector : String)
  | setDesignTokens (category : String) (tokens : List (String × String))
  | updateToken (category key newValue : String)
  | setViewport (device : Option String) (width height : Option Nat)
deriving DecidableEq, Repr

/-- Dispatch an operation, discarding its value result. -/
def applyOp (op : Op) (s : St) : Except Err (St × List DeltaKind) :=
  match op with
  | .createNode freshId a => (createElement s freshId a).map (fun r => r.2)
  | .updateNode a => (updateElement s a).map (fun r => r.2)
  | .deleteNode id => deleteElement s id
  | .moveNode id np ii => (moveElement s id np ii).map (fun r => r.2)
  | .createPage f1 f2 name => (GhostCanvas.createPage s f1 f2 name).map (fun r => r.2)
  | .clonePage src name fp fids => (GhostCanvas.clonePage s src name fp fids).map (fun r => r.2)
  | .deletePage pid => GhostCanvas.deletePage s pid
  | .renamePage pid name => (GhostCanvas.renamePage s pid name).map (fun r => r.2)
  | .setActivePage pid => GhostCanvas.setActivePage s pid
  | .setStyles sel props => (GhostCanvas.setStyles s sel props).map (fun r => r.2)
  | .batchSetStyles styles => GhostCanvas.batchSetStyles s styles
  | .deleteStyles sel => GhostCanvas.deleteStyles s sel
  | .setDesignTokens cat toks => (GhostCanvas.setDesignTokens s cat toks).map (fun r => r.2)
  | .updateToken cat key v => (updateTokenWithPropagation s cat key v).map (fun r => r.2)
  | .setViewport d w h => (GhostCanvas.setViewport s d w h).map (fun r => r.2)

/-! ### Snapshot codec (manager.js `_writeSplitFiles` lines 54-87 and
`_loadSplitFiles` lines 89-124), as pure data: one unit with project
metadata + tokens, one with styles, one per page with the page's metadata
and the elements stamped with its id. -/

/-- Content of `project.json`: `{ ...project, designTokens }`. -/
structure ProjectFile where
  project : Project
  designTokens : Tokens
deriving DecidableEq, Repr

/-- Content of `pages/<id>.json`: `{ ...page, elements: pageElements }`. -/
structure PageFile where
  page : Page
  elements : List (String × Element)
deriving DecidableEq, Repr

/-- The split on-disk layout. -/
structure SplitFiles where
  projectFile : ProjectFile
  stylesFile : Styles
  pageFiles : List PageFile
deriving DecidableEq, Repr

/-- `StateManager._writeSplitFiles`: serializes the state into the split
layout (dirty bookkeeping aside). -/
def writeSplitFiles (s : St) : SplitFiles :=
  { projectFile := { project := s.project, designTokens := s.designTokens }
    stylesFile := s.styles
    pageFiles := s.pages.map fun pv =>
      { page := pv.2
        elements := s.elements.filter fun kv => kv.2.pageId = pv.1 } }

/-- `StateManager._loadSplitFiles`: rebuilds the state, keying each page by
the `id` stored in its file and merging all page element maps
(`Object.assign`) into the flat element map. -/
def loadSplitFiles (f : SplitFiles) : St :=
  let pages := f.pageFiles.foldl (fun acc pf => setS acc pf.page.id pf.page) []
  let elements := f.pageFiles.foldl
    (fun acc pf => pf.elements.foldl (fun a kv => setS a kv.1 kv.2) acc) []
  { project := f.projectFile.project
    pages := pages
    elements := elements
    styles := f.stylesFile
    designTokens := f.projectFile.designTokens
    dirty := Dirty.clean }

/-! ### DebouncedWriter (writer.js) with the durability-relevant part of
`StateManager.save`.

The event-loop interleavings that matter are modelled explicitly: a flush
captures the partitions to write (with their current contents) at the
synchronous start of `save()`, the disk write happens while other code may
run, and `_clearDirty()` then clears every dirty flag.  Partition contents
are version numbers; `mem` is the authoritative in-memory value, `disk`
what has been persisted. -/

/-- Writer-visible system state. -/
structure WriterSt where
  mem : List (String × Nat)
  disk : List (String × Nat)
  dirtyParts : List String
  timerPending : Bool
  inFlight : Option (List (String × Nat))
deriving DecidableEq, Repr

/-- An initial clean system. -/
def WriterSt.init : WriterSt :=
  { mem := [], disk := [], dirtyParts := [], timerPending := false, inFlight := none }

/-- A state mutation on partition `p`: bumps the in-memory version and
marks the partition dirty (every `StateManager` mutator ends with
`this.dirty.… = …`). -/
def mutateW (w : WriterSt) (p : String) : WriterSt :=
  { w with
    mem := setS w.mem p (((getS w.mem p).getD 0) + 1)
    dirtyParts := addSet w.dirtyParts p }

/-- `DebouncedWriter.schedule()` (restartable debounce timer). -/
def scheduleW (w : WriterSt) : WriterSt :=
  { w with timerPending := true }

/-- The synchronous prefix of `StateManager.save()`: captures the dirty
partitions with their current in-memory contents as the pending writes. -/
def startSaveW (w : WriterSt) : WriterSt :=
  { w with inFlight := some (w.dirtyParts.map fun p => (p, (getS w.mem p).getD 0)) }

/-- Completion of `save()`: the captured writes land on disk and
`_clearDirty()` clears every dirty flag — including flags that were set
after the save started. -/
def completeSaveW (w : WriterSt) : WriterSt :=
  match w.inFlight with
  | none => w
  | some writes =>
    { w with
      disk := writes.foldl (fun d pv => setS d pv.1 pv.2) w.disk
      dirtyParts := []
      inFlight := none }

/-- `DebouncedWriter._doFlush()`: returns immediately when nothing is
dirty, otherwise starts a save whose disk I/O may interleave with further
mutations (`mid`) before it completes. -/
def doFlushW (mid : List String) (w : WriterSt) : WriterSt :=
  if w.dirtyParts = [] then w
  else completeSaveW (mid.foldl mutateW (startSaveW w))

/-- `DebouncedWriter.waitForFlush()`: cancels the timer, awaits an
in-flight flush (mutations `mid1` may interleave with that wait), then
flushes once more only if `isDirty()` still reports dirty partitions
(mutations `mid2` may interleave with that second flush). -/
def waitForFlushW (mid1 mid2 : List String) (w : WriterSt) : WriterSt :=
  let w0 := { w with timerPending := false }
  let w1 :=
    match w0.inFlight with
    | some _ => completeSaveW (mid1.foldl mutateW w0)
    | none => w0
  if w1.dirtyParts ≠ [] then doFlushW mid2 w1 else w1

/-! ### Association-list lemmas -/

theorem getS_eq_none_iff {α : Type} (m : List (String × α)) (k : String) :
    getS m k = none ↔ k ∉ m.map (·.1) := by
  induction m with
  | nil => simp [getS]
  | cons kv rest ih =>
    simp only [getS, List.map_cons, List.mem_cons]
    split
    · simp_all
    · simp_all [eq_comm]

theorem getS_isSome_of_mem_keys {α : Type} {m : List (String × α)} {k : String}
    (h : k ∈ m.map (·.1)) : (getS m k).isSome := by
  rcases hg : getS m k with _ | v
  · exact absurd ((getS_eq_none_iff m k).1 hg) (by simpa using h)
  · rfl

theorem mem_keys_of_getS_isSome {α : Type} {m : List (String × α)} {k : String}
    (h : (getS m k).isSome) : k ∈ m.map (·.1) := by
  by_contra hk
  rw [← getS_eq_none_iff] at hk
  simp [hk] at h

theorem getS_mapIf_self {α : Type} (m : List (String × α)) (k : String) (g : α → α) :
    getS (m.map fun kv => if kv.1 = k then (kv.1, g kv.2) else kv) k
      = (getS m k).map g := by
  induction m with
  | nil => simp [getS]
  | cons kv rest ih =>
    by_cases h : kv.1 = k
    · simp [getS, h]
    · simp [getS, h, ih]

theorem getS_mapIf_ne {α : Type} (m : List (String × α)) (k k' : String) (g : α → α)
    (h : k' ≠ k) :
    getS (m.map fun kv => if kv.1 = k then (kv.1, g kv.2) else kv) k'
      = getS m k' := by
  induction m with
  | nil => simp [getS]
  | cons kv rest ih =>
    by_cases hk : kv.1 = k
    · subst hk
      simp [getS, Ne.symm h, ih]
    · by_cases hk' : kv.1 = k'
      · simp [getS, hk, hk', h]
      · simp [getS, hk, hk', ih]

theorem getS_append_single_ne {α : Type} (m : List (String × α)) (k k' : String)
    (v : α) (h : k' ≠ k) : getS (m ++ [(k, v)]) k' = getS m k' := by
  induction m with
  | nil => simp [getS, Ne.symm h]
  | cons kv rest ih =>
    by_cases hk : kv.1 = k'
    · simp [getS, hk]
    · simp [getS, hk, ih]

theorem getS_append_single_self {α : Type} (m : List (String × α)) (k : String)
    (v : α) (h : getS m k = none) : getS (m ++ [(k, v)]) k = some v := by
  induction m with
  | nil => simp [getS]
  | cons kv rest ih =>
    by_cases hk : kv.1 = k
    · simp [getS, hk] at h
    · simp only [getS, hk, if_false] at h
      simp only [List.cons_append, getS, hk, if_false]
      exact ih h

theorem getS_setS_self {α : Type} (m : List (String × α)) (k : String) (v : α) :
    getS (setS m k v) k = some v := by
  unfold setS
  split
  · rename_i hs
    have := getS_mapIf_self m k (fun _ => v)
    rcases hg : getS m k with _ | w
    · simp [hg] at hs
    · simpa [hg] using this
  · rename_i hs
    apply getS_append_single_self
    rcases hg : getS m k with _ | w
    · rfl
    · simp [hg] at hs

theorem getS_setS_ne {α : Type} (m : List (String × α)) (k k' : String) (v : α)
    (h : k' ≠ k) : getS (setS m k v) k' = getS m k' := by
  unfold setS
  split
  · exact getS_mapIf_ne m k k' (fun _ => v) h
  · exact getS_append_single_ne m k k' v h

theorem getS_updS_self {α : Type} (m : List (String × α)) (k : String) (f : α → α) :
    getS (updS m k f) k = (getS m k).map f :=
  getS_mapIf_self m k f

theorem getS_updS_ne {α : Type} (m : List (String × α)) (k k' : String) (f : α → α)
    (h : k' ≠ k) : getS (updS m k f) k' = getS m k' :=
  getS_mapIf_ne m k k' f h

theorem getS_filter_key {α : Type} (m : List (String × α)) (p : String → Bool)
    (k : String) :
    getS (m.filter fun kv => p kv.1) k = if p k then getS m k else none := by
  induction m with
  | nil => simp [getS]
  | cons kv rest ih =>
    by_cases hp : p kv.1
    · rw [List.filter_cons_of_pos (by simpa using hp)]
      by_cases hk : kv.1 = k
      · subst hk
        simp [getS, hp]
      · simp [getS, hk, ih]
    · rw [List.filter_cons_of_neg (by simpa using hp)]
      by_cases hk : kv.1 = k
      · subst hk
        simp [getS, hp, ih]
      · simp [getS, hk, ih]

theorem length_filter_ne_add_count {α : Type} [DecidableEq α] (l : List α) (a : α) :
    (l.filter (· ≠ a)).length + l.count a = l.length := by
  induction l with
  | nil => simp
  | cons x xs ih =>
    by_cases h : x = a
    · subst h
      rw [List.filter_cons_of_neg (by simp), List.count_cons_self]
      simp only [List.length_cons]
      omega
    · rw [List.filter_cons_of_pos (by simpa using h),
        List.count_cons_of_ne (Ne.symm h)]
      simp only [List.length_cons]
      omega

/-! ### Claim C1 — the engine does not reject self-parenting moves.

Concrete page tree: `root-1` with single child `a`. -/

/-- Root element of the C1/C5/C9/C10 scenario states. -/
def elRoot : Element :=
  { id := "root-1", tag := "div", classes := ["page-root"], attributes := [],
    textContent := none, children := ["a"], parentId := none, pageId := "page-1" }

/-- Child element `a` (no children of its own in the C1 state). -/
def elA0 : Element :=
  { id := "a", tag := "div", classes := [], attributes := [],
    textContent := none, children := [], parentId := some "root-1", pageId := "page-1" }

/-- The single page of the scenario states. -/
def pgHome : Page := { id := "page-1", name := "Home", rootId := "root-1", styles := [] }

/-- Default-like project metadata. -/
def projHome : Project :=
  { name := "Untitled Design", activePageId := "page-1",
    viewport := { device := "desktop", width := 1440, height := 900 },
    designType := "responsive-web" }

/-- State for the C1 counter-scenario: one page, root with one child. -/
def stMove : St :=
  { project := projHome
    pages := [("page-1", pgHome)]
    elements := [("root-1", elRoot), ("a", elA0)]
    styles := []
    designTokens := [("colors", []), ("fonts", []), ("spacing", [])]
    dirty := Dirty.clean }

/-- Claim C1: `moveNode(id, id)` must fail with `InvalidOperation` and leave
the tree unchanged.  The code instead accepts the self-parenting move
`moveElement('a', 'a')`, emits `delta:element:moved`, detaches `a` from
`root-1` and makes `a` its own parent and its own child — a cycle that
breaks the forest invariant. -/
theorem moveElement_accepts_self_parent :
    moveElement stMove "a" "a" none =
      .ok ({ elA0 with parentId := some "a", children := ["a"] },
        { stMove with
          elements := [("root-1", { elRoot with children := [] }),
                       ("a", { elA0 with parentId := some "a", children := ["a"] })]
          dirty := { Dirty.clean with pages := ["page-1"] } },
        [DeltaKind.elementMoved]) ∧
    getS stMove.elements "a" = some elA0 ∧ elA0.parentId = some "root-1" := by
  decide

/-! ### Claim C7 — `waitForFlush` loses partitions dirtied while a flush is
in flight.

Trace: partition `A` is mutated and a flush starts (capturing only `A`);
partition `P` is then mutated while that flush is in flight; `waitForFlush`
is called.  The completing save's `_clearDirty()` wipes `P`'s dirty flag
without having written `P`, so the `isDirty()` recheck sees nothing and no
second flush runs: `P`'s data is not on disk when `waitForFlush` returns. -/

/-- Writer state at the moment `waitForFlush()` is called in the C7 trace. -/
def wTrace : WriterSt := mutateW (startSaveW (mutateW WriterSt.init "A")) "P"

/-- Claim C7: partition `P` is dirty (with unpersisted content) when
`waitForFlush()` is called, yet after `waitForFlush()` returns nothing of
`P` ever reached disk and no flush remains pending — the promised
additional flush for partitions that accumulated during the in-flight
flush never happens. -/
theorem waitForFlush_drops_midflight_partition :
    ("P" ∈ wTrace.dirtyParts ∧ getS wTrace.mem "P" = some 1 ∧
      getS wTrace.disk "P" = none ∧ wTrace.inFlight = some [("A", 1)]) ∧
    waitForFlushW [] [] wTrace =
      { mem := [("A", 1), ("P", 1)], disk := [("A", 1)], dirtyParts := [],
        timerPending := false, inFlight := none } ∧
    getS (waitForFlushW [] [] wTrace).disk "P" = none := by
  decide

/-! ### Claim C8 — idempotence of `updateTokenWithPropagation` -/

/-- Helper: when the token (category, key) currently holds exactly `v`,
`updateTokenWithPropagation(category, key, v)` is the eventless no-op. -/
theorem updateToken_noop (s : St) (category key v : String)
    (hb : ((getS s.designTokens category).bind fun cat => getS cat key) = some v) :
    updateTokenWithPropagation s category key v = .ok (0, s, []) := by
  unfold updateTokenWithPropagation
  split
  · rename_i hnone
    exact absurd (hb.symm.trans hnone) (by simp)
  · rename_i old hsome
    have ho : old = v := (Option.some.inj (hb.symm.trans hsome)).symm
    rw [if_pos ho]

/-- Claim C8: once `updateTokenWithPropagation(category, key, v)` succeeds,
running it again with the same arguments reports `updatedStyles = 0`,
emits nothing, and leaves the state untouched (the second call hits the
`oldValue === newValue` early return before any mutation). -/
theorem updateTokenWithPropagation_idempotent :
    ∀ (s : St) (category key v : String) (n : Nat) (s1 : St) (evs : List DeltaKind),
      updateTokenWithPropagation s category key v = .ok (n, s1, evs) →
      updateTokenWithPropagation s1 category key v = .ok (0, s1, []) := by
  intro s category key v n s1 evs h
  unfold updateTokenWithPropagation at h
  split at h
  · exact absurd h (by simp)
  · rename_i old hb
    obtain ⟨cat, hcat, hkey⟩ := Option.bind_eq_some.1 hb
    split at h
    · rename_i he
      simp only [Except.ok.injEq, Prod.mk.injEq] at h
      obtain ⟨-, h2, -⟩ := h
      subst h2
      exact updateToken_noop s category key v (he ▸ hb)
    · rename_i he
      simp only [Except.ok.injEq, Prod.mk.injEq] at h
      obtain ⟨-, h2, -⟩ := h
      subst h2
      apply updateToken_noop
      have hcat1 : getS (updS s.designTokens category fun c => setS c key v) category
          = some (setS cat key v) := by
        rw [getS_updS_self, hcat]
        rfl
      dsimp only
      rw [hcat1]
      simpa using getS_setS_self cat key v

/-- Witness state for C8: one style rule referencing token `colors.bg`. -/
def stIdem : St :=
  { project := projHome
    pages := []
    elements := []
    styles := [(".hero", [("color", "#fff")])]
    designTokens := [("colors", [("bg", "#fff")]), ("fonts", []), ("spacing", [])]
    dirty := Dirty.clean }

/-- State after the first `updateTokenWithPropagation('colors','bg','#000')`
on `stIdem`. -/
def stIdem1 : St :=
  { project := projHome
    pages := []
    elements := []
    styles := [(".hero", [("color", "#000")])]
    designTokens := [("colors", [("bg", "#000")]), ("fonts", []), ("spacing", [])]
    dirty := { project := true, styles := true, pages := [], deletedPages := [] } }

/-- Witness for C8 at a concrete input: the first call succeeds with one
updated selector, the second call is the identity with count zero. -/
theorem updateTokenWithPropagation_idempotent_witness :
    updateTokenWithPropagation stIdem "colors" "bg" "#000" =
      .ok (1, stIdem1, [DeltaKind.tokensSet, DeltaKind.stylesBatch]) ∧
    updateTokenWithPropagation stIdem1 "colors" "bg" "#000" = .ok (0, stIdem1, []) :=
  ⟨by decide,
    updateTokenWithPropagation_idempotent stIdem "colors" "bg" "#000" 1 stIdem1
      [DeltaKind.tokensSet, DeltaKind.stylesBatch] (by decide)⟩

/-! ### Claim C10 — asymmetric textContent normalization -/

/-- Claim C10: both `createElement` and `updateElement` pass the supplied
`textContent` through `decodeUnicodeEscapes` before storing it, but
`createElement` turns a decoded empty string into `null`
(`decodeUnicodeEscapes(textContent) || null`) while `updateElement` stores
the decoded value as is, empty string included. -/
theorem textContent_normalization :
    (∀ (s : St) (freshId : String) (a : CreateArgs) (el : Element) (s' : St)
        (evs : List DeltaKind),
      createElement s freshId a = .ok (el, s', evs) →
      el.textContent =
        (match a.textContent with
         | none => none
         | some t =>
           if decodeUnicodeEscapes t = "" then none
           else some (decodeUnicodeEscapes t)) ∧
      (freshId ≠ a.parentId → getS s'.elements freshId = some el)) ∧
    (∀ (s : St) (a : UpdateArgs) (el0 el' : Element) (s' : St)
        (evs : List DeltaKind),
      getS s.elements a.id = some el0 →
      updateElement s a = .ok (el', s', evs) →
      el'.textContent =
        (match a.textContent with
         | none => el0.textContent
         | some tc => tc.map decodeUnicodeEscapes) ∧
      getS s'.elements a.id = some el') := by
  constructor
  · intro s freshId a el s' evs h
    unfold createElement at h
    split at h
    · exact absurd h (by simp)
    · rename_i parent hp
      simp only [Except.ok.injEq, Prod.mk.injEq] at h
      obtain ⟨h1, h2, -⟩ := h
      constructor
      · rw [← h1]
      · intro hne
        rw [← h2]
        dsimp only
        rw [getS_updS_ne _ _ _ _ hne, getS_setS_self]
        rw [← h1]
  · intro s a el0 el' s' evs h0 h
    unfold updateElement at h
    split at h
    · exact absurd h (by simp)
    · rename_i el0' hp
      have he0 : el0' = el0 := (Option.some.inj (h0.symm.trans hp)).symm
      subst he0
      simp only [Except.ok.injEq, Prod.mk.injEq] at h
      obtain ⟨h1, h2, -⟩ := h
      constructor
      · rw [← h1]
        cases a.tag <;> cases a.classes <;> cases a.attributes <;>
          cases a.textContent <;> simp
      · rw [← h2]
        dsimp only
        rw [getS_updS_self, h0]
        rw [← h1]
        rfl

/-- Creation arguments for the C10 witness: empty-string `textContent`. -/
def caEmptyText : CreateArgs :=
  { tag := "p", parentId := "a", classes := none, attributes := none,
    textContent := some "", insertIndex := none }

/-- The node `createElement stMove "n1" caEmptyText` stores. -/
def elCreatedEmpty : Element :=
  { id := "n1", tag := "p", classes := [], attributes := [],
    textContent := none, children := [], parentId := some "a", pageId := "page-1" }

/-- State after that creation. -/
def stAfterCreate : St :=
  { project := projHome
    pages := [("page-1", pgHome)]
    elements := [("root-1", elRoot), ("a", { elA0 with children := ["n1"] }),
                 ("n1", elCreatedEmpty)]
    styles := []
    designTokens := [("colors", []), ("fonts", []), ("spacing", [])]
    dirty := { Dirty.clean with pages := ["page-1"] } }

/-- Update arguments for the C10 witness: empty-string `textContent`. -/
def uaEmptyText : UpdateArgs :=
  { id := "a", tag := none, classes := none, attributes := none,
    textContent := some (some "") }

/-- The node `updateElement stMove uaEmptyText` stores. -/
def elUpdatedEmpty : Element := { elA0 with textContent := some "" }

/-- State after that update. -/
def stAfterUpdate : St :=
  { project := projHome
    pages := [("page-1", pgHome)]
    elements := [("root-1", elRoot), ("a", elUpdatedEmpty)]
    styles := []
    designTokens := [("colors", []), ("fonts", []), ("spacing", [])]
    dirty := { Dirty.clean with pages := ["page-1"] } }

/-- Witness for C10 at concrete inputs: creating with `textContent = ""`
stores `null`, updating with `textContent = ""` stores the empty string. -/
theorem textContent_normalization_witness :
    elCreatedEmpty.textContent = none ∧
    getS stAfterCreate.elements "n1" = some elCreatedEmpty ∧
    elUpdatedEmpty.textContent = some "" ∧
    getS stAfterUpdate.elements "a" = some elUpdatedEmpty := by
  have h1 := textContent_normalization.1 stMove "n1" caEmptyText elCreatedEmpty
    stAfterCreate [DeltaKind.elementCreated] (by decide)
  have h2 := textContent_normalization.2 stMove uaEmptyText elA0 elUpdatedEmpty
    stAfterUpdate [DeltaKind.elementUpdated] (by decide) (by decide)
  exact ⟨h1.1.trans (by decide), h1.2 (by decide), h2.1.trans (by decide), h2.2⟩

/-! ### Claim C9 — `createElement` contract -/

/-- Claim C9: `createNode` fails with `NotFound` when the parent does not
resolve; on success the node inherits the parent's `pageId`, an omitted
`insertIndex` appends, and any out-of-range `insertIndex` (negative values
included) succeeds, the id landing at the splice-computed bound: indices at
or beyond the children length append, negative indices clamp to
`max(length + index, 0)`. -/
theorem createElement_spec :
    ∀ (s : St) (freshId : String) (a : CreateArgs),
      (getS s.elements a.parentId = none →
        createElement s freshId a = .error .notFound) ∧
      (∀ parent, getS s.elements a.parentId = some parent → freshId ≠ a.parentId →
        (∃ r, createElement s freshId a = .ok r) ∧
        (∀ el s' evs, createElement s freshId a = .ok (el, s', evs) →
          evs = [DeltaKind.elementCreated] ∧
          el.pageId = parent.pageId ∧
          getS s'.elements freshId = some el ∧
          getS s'.elements a.parentId =
            some { parent with children :=
              match a.insertIndex with
              | some i => insertAt parent.children i freshId
              | none => parent.children ++ [freshId] }) ∧
        (∀ i, a.insertIndex = some i → (parent.children.length : Int) ≤ i →
          insertAt parent.children i freshId = parent.children ++ [freshId]) ∧
        (∀ i, a.insertIndex = some i → i < 0 →
          insertAt parent.children i freshId =
            parent.children.take (((parent.children.length : Int) + i).toNat)
              ++ freshId :: parent.children.drop
                  (((parent.children.length : Int) + i).toNat))) := by
  intro s freshId a
  constructor
  · intro hp
    unfold createElement
    rw [hp]
  · intro parent hp hne
    refine ⟨?_, ?_, ?_, ?_⟩
    · unfold createElement
      split
      · rename_i hnone
        exact absurd (hp.symm.trans hnone) (by simp)
      · exact ⟨_, rfl⟩
    · intro el s' evs h
      unfold createElement at h
      split at h
      · exact absurd h (by simp)
      · rename_i parent' hp'
        have hpe : parent' = parent := (Option.some.inj (hp.symm.trans hp')).symm
        subst hpe
        simp only [Except.ok.injEq, Prod.mk.injEq] at h
        obtain ⟨h1, h2, h3⟩ := h
        refine ⟨h3.symm, ?_, ?_, ?_⟩
        · rw [← h1]
        · rw [← h2, ← h1]
          dsimp only
          rw [getS_updS_ne _ _ _ _ hne, getS_setS_self]
        · rw [← h2]
          dsimp only
          rw [getS_updS_self, getS_setS_ne _ _ _ _ (Ne.symm hne), hp]
          rfl
    · intro i hi hge
      unfold insertAt spliceIndex
      have h0 : ¬i < 0 := by omega
      have hmin : min i.toNat parent.children.length = parent.children.length := by
        omega
      rw [if_neg h0, hmin, List.take_length, List.drop_length]
    · intro i hi hlt
      unfold insertAt spliceIndex
      rw [if_pos hlt]

/-- Creation arguments for the C9 witness: a far negative `insertIndex`. -/
def caNegIndex : CreateArgs :=
  { tag := "span", parentId := "root-1", classes := none, attributes := none,
    textContent := none, insertIndex := some (-5) }

/-- The node the C9 witness call creates. -/
def elNeg : Element :=
  { id := "n2", tag := "span", classes := [], attributes := [],
    textContent := none, children := [], parentId := some "root-1",
    pageId := "page-1" }

/-- State after `createElement stMove "n2" caNegIndex`: the far negative
index clamps to position 0, so "n2" is prepended to the root's children. -/
def stAfterNeg : St :=
  { project := projHome
    pages := [("page-1", pgHome)]
    elements := [("root-1", { elRoot with children := ["n2", "a"] }),
                 ("a", elA0), ("n2", elNeg)]
    styles := []
    designTokens := [("colors", []), ("fonts", []), ("spacing", [])]
    dirty := { Dirty.clean with pages := ["page-1"] } }

/-- Witness for C9 at a concrete input: the parent resolves and the
negative out-of-range index is accepted, landing at the clamped bound. -/
theorem createElement_spec_witness :
    (∃ r, createElement stMove "n2" caNegIndex = .ok r) ∧
    ([DeltaKind.elementCreated] = [DeltaKind.elementCreated] ∧
      elNeg.pageId = elRoot.pageId ∧
      getS stAfterNeg.elements "n2" = some elNeg ∧
      getS stAfterNeg.elements caNegIndex.parentId =
        some { elRoot with children :=
          match caNegIndex.insertIndex with
          | some i => insertAt elRoot.children i "n2"
          | none => elRoot.children ++ ["n2"] }) ∧
    (∀ i, caNegIndex.insertIndex = some i → i < 0 →
      insertAt elRoot.children i "n2" =
        elRoot.children.take (((elRoot.children.length : Int) + i).toNat)
          ++ "n2" :: elRoot.children.drop
              (((elRoot.children.length : Int) + i).toNat)) := by
  have h := (createElement_spec stMove "n2" caNegIndex).2 elRoot (by decide) (by decide)
  exact ⟨h.1, h.2.1 elNeg stAfterNeg [DeltaKind.elementCreated] (by decide), h.2.2.2⟩

/-! ### Claim C6 — `deletePage` contract -/

/-- Claim C6: deleting the only page fails with `InvalidOperation` and
changes nothing; with at least two pages the page and all elements stamped
with it are removed, and when the deleted page was active the active page
id is reassigned to a page that still exists. -/
theorem length_eraseS_add_count {α : Type} (m : List (String × α)) (k : String) :
    (eraseS m k).length + (m.map (·.1)).count k = m.length := by
  induction m with
  | nil => simp [eraseS]
  | cons kv rest ih =>
    unfold eraseS at ih ⊢
    by_cases h : kv.1 = k
    · rw [List.filter_cons_of_neg (by simpa using h)]
      simp only [List.map_cons, List.length_cons]
      rw [h, List.count_cons_self]
      omega
    · rw [List.filter_cons_of_pos (by simpa using h)]
      simp only [List.map_cons, List.length_cons]
      rw [List.count_cons_of_ne (fun hk => h hk.symm)]
      omega

theorem deletePage_spec :
    ∀ (s : St) (pid : String) (page : Page),
      getS s.pages pid = some page →
      (s.pages.length = 1 → deletePage s pid = .error .invalidOperation) ∧
      (2 ≤ s.pages.length → (s.pages.map (·.1)).Nodup →
        (∃ r, deletePage s pid = .ok r) ∧
        (∀ s' evs, deletePage s pid = .ok (s', evs) →
          evs = [DeltaKind.pageDeleted] ∧
          s'.pages = eraseS s.pages pid ∧
          s'.elements = s.elements.filter (fun kv => kv.2.pageId ≠ pid) ∧
          s'.styles = s.styles ∧
          s'.designTokens = s.designTokens ∧
          (s.project.activePageId ≠ pid → s'.project = s.project) ∧
          (s.project.activePageId = pid →
            ∃ k pg, s'.project.activePageId = k ∧ getS s'.pages k = some pg))) := by
  intro s pid page hp
  constructor
  · intro hlen
    unfold deletePage
    split
    · rename_i hnone
      exact absurd (hp.symm.trans hnone) (by simp)
    · rw [if_pos (by omega)]
  · intro hlen hnd
    have hcount : (s.pages.map (·.1)).count pid = 1 := by
      have hmem : pid ∈ s.pages.map (·.1) :=
        mem_keys_of_getS_isSome (by simp [hp])
      have hle := List.nodup_iff_count_le_one.1 hnd pid
      have hge := List.count_pos_iff.2 hmem
      omega
    have hlen' : (eraseS s.pages pid).length + 1 = s.pages.length := by
      have := length_eraseS_add_count s.pages pid
      omega
    constructor
    · unfold deletePage
      split
      · rename_i hnone
        exact absurd (hp.symm.trans hnone) (by simp)
      · rw [if_neg (by omega)]
        exact ⟨_, rfl⟩
    · intro s' evs h
      unfold deletePage at h
      split at h
      · exact absurd h (by simp)
      · rw [if_neg (by omega)] at h
        simp only [Except.ok.injEq, Prod.mk.injEq] at h
        obtain ⟨h1, h2⟩ := h
        refine ⟨h2.symm, ?_, ?_, ?_, ?_, ?_, ?_⟩
        · rw [← h1]
        · rw [← h1]
        · rw [← h1]
        · rw [← h1]
        · intro hne
          rw [← h1]
          dsimp only
          rw [if_neg hne]
        · intro hact
          rcases hpp : eraseS s.pages pid with _ | ⟨kv, t⟩
          · rw [hpp] at hlen'
            simp at hlen'
            omega
          · refine ⟨kv.1, kv.2, ?_, ?_⟩
            · rw [← h1]
              dsimp only
              rw [if_pos hact]
              dsimp only
              rw [hpp]
              simp
            · rw [← h1]
              dsimp only
              rw [hpp]
              simp [getS]

/-- Second page for the C6 witness. -/
def pgAbout : Page := { id := "page-2", name := "About", rootId := "root-2", styles := [] }

/-- Root element of the second page. -/
def elRoot2 : Element :=
  { id := "root-2", tag := "div", classes := ["page-root"], attributes := [],
    textContent := none, children := [], parentId := none, pageId := "page-2" }

/-- Two-page witness state; `page-1` (with two elements) is active. -/
def stTwoPages : St :=
  { project := projHome
    pages := [("page-1", pgHome), ("page-2", pgAbout)]
    elements := [("root-1", elRoot), ("a", elA0), ("root-2", elRoot2)]
    styles := []
    designTokens := [("colors", []), ("fonts", []), ("spacing", [])]
    dirty := Dirty.clean }

/-- Result of `deletePage stTwoPages "page-1"`. -/
def stAfterDeletePage : St :=
  { project := { projHome with activePageId := "page-2" }
    pages := [("page-2", pgAbout)]
    elements := [("root-2", elRoot2)]
    styles := []
    designTokens := [("colors", []), ("fonts", []), ("spacing", [])]
    dirty := { project := true, styles := false, pages := [], deletedPages := ["page-1"] } }

/-- Witness for C6 at a concrete input: deleting the active of two pages
drops the page with its elements and reassigns the active page id to the
surviving page. -/
theorem deletePage_spec_witness :
    deletePage stTwoPages "page-1" = .ok (stAfterDeletePage, [DeltaKind.pageDeleted]) ∧
    stAfterDeletePage.pages = eraseS stTwoPages.pages "page-1" ∧
    stAfterDeletePage.elements =
      stTwoPages.elements.filter (fun kv => kv.2.pageId ≠ "page-1") ∧
    (∃ k pg, stAfterDeletePage.project.activePageId = k ∧
      getS stAfterDeletePage.pages k = some pg) := by
  have h := (deletePage_spec stTwoPages "page-1" pgHome (by decide)).2
    (by decide) (by decide)
  have h2 := h.2 stAfterDeletePage [DeltaKind.pageDeleted] (by decide)
  exact ⟨by decide, h2.2.1, h2.2.2.1, h2.2.2.2.2.2.2 (by decide)⟩

/-! ### Claim C2 — `updateTokenWithPropagation` word-boundary substitution

The claim describes the boundary rule symmetrically: an occurrence
"immediately preceded **or followed** by an alphanumeric or hash
character" is not replaced.  The code's regex
`(?<![a-zA-Z0-9#])…(?![a-zA-Z0-9])` blocks a preceding `#` but **not** a
following `#`. -/

/-- Modelled from the claim's words: lookahead that also blocks on a
following hash character. -/
def nextBlockedClaim : List Char → Bool
  | [] => false
  | c :: _ => isWordChar c || c = '#'

/-- Modelled from the claim's words: the same left-to-right scan as
`replaceScanF` but with the claim's symmetric boundary rule. -/
def replaceScanClaimF (old new : List Char) : Nat → Option Char → List Char → List Char
  | 0, _, l => l
  | _ + 1, prev, [] =>
    if old.isEmpty && !prevBlocked prev then new else []
  | fuel + 1, prev, c :: rest =>
    if !old.isEmpty && old.isPrefixOf (c :: rest) && !prevBlocked prev
        && !nextBlockedClaim ((c :: rest).drop old.length) then
      new ++ replaceScanClaimF old new fuel old.getLast? ((c :: rest).drop old.length)
    else if old.isEmpty && !prevBlocked prev && !nextBlockedClaim (c :: rest) then
      new ++ c :: replaceScanClaimF old new fuel (some c) rest
    else
      c :: replaceScanClaimF old new fuel (some c) rest

/-- The claim's replacement on strings. -/
def replaceTokenValueClaim (old new v : String) : String :=
  String.mk (replaceScanClaimF old.data new.data (v.data.length + 1) none v.data)

/-- Counterexample state: token `colors.bg = "fff"` and a style value in
which the occurrence of `fff` is followed by `#`. -/
def stBoundary : St :=
  { project := projHome
    pages := []
    elements := []
    styles := [(".a", [("color", "fff#000")])]
    designTokens := [("colors", [("bg", "fff")]), ("fonts", []), ("spacing", [])]
    dirty := Dirty.clean }

/-- Result of `updateTokenWithPropagation stBoundary "colors" "bg" "000"`. -/
def stBoundary1 : St :=
  { project := projHome
    pages := []
    elements := []
    styles := [(".a", [("color", "000#000")])]
    designTokens := [("colors", [("bg", "000")]), ("fonts", []), ("spacing", [])]
    dirty := { project := true, styles := true, pages := [], deletedPages := [] } }

/-- Counterexample to C2 as stated: replacing token value `fff` by `000` in
the style value `fff#000` — the occurrence is followed by a hash character,
so under the claim's boundary rule it must not be replaced (the claim-side
scan leaves the value unchanged and the claimed count is 0), but the code
replaces it and reports one changed selector. -/
theorem updateToken_wordBoundary_counterexample :
    replaceTokenValueClaim "fff" "000" "fff#000" = "fff#000" ∧
    replaceTokenValue "fff" "000" "fff#000" = "000#000" ∧
    updateTokenWithPropagation stBoundary "colors" "bg" "000" =
      .ok (1, stBoundary1, [DeltaKind.tokensSet, DeltaKind.stylesBatch]) ∧
    getS stBoundary1.styles ".a" = some [("color", "000#000")] := by
  decide

/-- A scan that finds no match replaces nothing. -/
theorem replaceScanF_eq_of_not_hasMatch :
    ∀ (old new : List Char) (fuel : Nat) (prev : Option Char) (l : List Char),
      hasMatchScanF old fuel prev l = false →
      replaceScanF old new fuel prev l = l := by
  intro old new fuel
  induction fuel with
  | zero =>
    intro prev l h
    rfl
  | succ f ih =>
    intro prev l h
    cases l with
    | nil =>
      unfold hasMatchScanF at h
      unfold replaceScanF
      simp [h]
    | cons c rest =>
      unfold hasMatchScanF at h
      rw [Bool.or_eq_false_iff] at h
      obtain ⟨hA, hrec⟩ := h
      have h1 : (!old.isEmpty && old.isPrefixOf (c :: rest) && !prevBlocked prev
          && !nextBlocked ((c :: rest).drop old.length)) = false := by
        cases hp1 : old.isPrefixOf (c :: rest) <;>
          cases hp2 : prevBlocked prev <;>
            cases hp3 : nextBlocked ((c :: rest).drop old.length) <;>
              simp_all
      have h2 : (old.isEmpty && !prevBlocked prev && !nextBlocked (c :: rest)) = false := by
        rcases old with _ | ⟨o, os⟩
        · simpa using hA
        · simp
      unfold replaceScanF
      rw [if_neg (by simp [h1]), if_neg (by simp [h2]), ih _ _ hrec]

/-- The same fact on strings: `regex.test(val) === false` means the
replacement is the identity. -/
theorem replaceTokenValue_eq_of_not_hasTokenMatch (old new v : String)
    (h : hasTokenMatch old v = false) : replaceTokenValue old new v = v := by
  unfold replaceTokenValue
  rw [replaceScanF_eq_of_not_hasMatch _ _ _ _ _ h]

/-- Number of selectors in which the old token value has a match — the
`updatedStyles` counter of the propagation loop. -/
def changedCount (s : St) (old : String) : Nat :=
  s.styles.countP fun sp => sp.2.any fun pv => hasTokenMatch old pv.2

/-- The propagation loop is the map-and-count over the styles: every
property value is rewritten through the regex, and the counter counts the
selectors with at least one match. -/
theorem updateToken_scan_characterization :
    ∀ (styles : Styles) (old new : String) (n : Nat) (acc : Styles),
      styles.foldl
        (fun (accp : Nat × Styles) sp =>
          let props' := sp.2.map fun pv =>
            if hasTokenMatch old pv.2 then (pv.1, replaceTokenValue old new pv.2) else pv
          let selectorChanged := sp.2.any fun pv => hasTokenMatch old pv.2
          ((if selectorChanged then accp.1 + 1 else accp.1), accp.2 ++ [(sp.1, props')]))
        (n, acc)
      = (n + styles.countP (fun sp => sp.2.any fun pv => hasTokenMatch old pv.2),
         acc ++ styles.map (fun sp => (sp.1, sp.2.map fun pv =>
           (pv.1, replaceTokenValue old new pv.2)))) := by
  intro styles old new
  induction styles with
  | nil =>
    intro n acc
    simp
  | cons sp rest ih =>
    intro n acc
    have hprops : (sp.2.map fun pv =>
        if hasTokenMatch old pv.2 then (pv.1, replaceTokenValue old new pv.2) else pv)
        = sp.2.map fun pv => (pv.1, replaceTokenValue old new pv.2) := by
      apply List.map_congr_left
      intro pv _
      by_cases hm : hasTokenMatch old pv.2
      · rw [if_pos hm]
      · rw [if_neg (by simp [hm]),
          replaceTokenValue_eq_of_not_hasTokenMatch old new pv.2 (by simpa using hm)]
    simp only [List.foldl_cons]
    rw [ih]
    rw [hprops]
    refine congrArg₂ Prod.mk ?_ ?_
    · rw [List.countP_cons]
      cases hc : sp.2.any (fun pv => hasTokenMatch old pv.2) <;> (simp [hc]; try omega)
    · simp

/-- Claim C2 as amended: `updateTokenWithPropagation` fails with `NotFound`
when the token is unset; is the count-zero eventless no-op when the old
value equals the new one; and otherwise rewrites every style property
value through the word-boundary scan (an occurrence preceded by an
alphanumeric or hash character, or followed by an alphanumeric character,
is not replaced — a following hash does **not** block), updates the token,
and returns the number of selectors that had a match. -/
theorem updateTokenWithPropagation_spec :
    ∀ (s : St) (category key newValue : String),
      (((getS s.designTokens category).bind fun cat => getS cat key) = none →
        updateTokenWithPropagation s category key newValue = .error .notFound) ∧
      (∀ oldValue,
        ((getS s.designTokens category).bind fun cat => getS cat key) = some oldValue →
        (oldValue = newValue →
          updateTokenWithPropagation s category key newValue = .ok (0, s, [])) ∧
        (oldValue ≠ newValue →
          (∃ r, updateTokenWithPropagation s category key newValue = .ok r) ∧
          (∀ n s' evs,
            updateTokenWithPropagation s category key newValue = .ok (n, s', evs) →
            n = changedCount s oldValue ∧
            evs = .tokensSet ::
              (if changedCount s oldValue > 0 then [.stylesBatch] else []) ∧
            s'.styles = s.styles.map (fun sp => (sp.1, sp.2.map fun pv =>
              (pv.1, replaceTokenValue oldValue newValue pv.2))) ∧
            ((getS s'.designTokens category).bind fun cat => getS cat key)
              = some newValue ∧
            s'.pages = s.pages ∧ s'.elements = s.elements ∧
            s'.project = s.project ∧
            s'.dirty = { s.dirty with
                          project := true
                          styles := if changedCount s oldValue > 0 then true
                                    else s.dirty.styles }))) := by
  intro s category key newValue
  constructor
  · intro hb
    unfold updateTokenWithPropagation
    split
    · rfl
    · rename_i old hsome
      exact absurd (hb.symm.trans hsome) (by simp)
  · intro oldValue hb
    constructor
    · intro he
      exact updateToken_noop s category key newValue (he ▸ hb)
    · intro he
      obtain ⟨cat, hcat, hkey⟩ := Option.bind_eq_some.1 hb
      constructor
      · unfold updateTokenWithPropagation
        split
        · rename_i hnone
          exact absurd (hb.symm.trans hnone) (by simp)
        · rename_i old hsome
          have ho : old = oldValue := (Option.some.inj (hb.symm.trans hsome)).symm
          subst ho
          rw [if_neg he]
          exact ⟨_, rfl⟩
      · intro n s' evs h
        unfold updateTokenWithPropagation at h
        split at h
        · exact absurd h (by simp)
        · rename_i old hsome
          have ho : old = oldValue := (Option.some.inj (hb.symm.trans hsome)).symm
          subst ho
          rw [if_neg he] at h
          rw [updateToken_scan_characterization s.styles old newValue 0 []] at h
          simp only [Nat.zero_add, List.nil_append] at h
          simp only [Except.ok.injEq, Prod.mk.injEq] at h
          obtain ⟨h1, h2, h3⟩ := h
          have hcount : changedCount s old
              = s.styles.countP (fun sp => sp.2.any fun pv => hasTokenMatch old pv.2) := rfl
          refine ⟨by rw [← h1, hcount], ?_, ?_, ?_, ?_, ?_, ?_, ?_⟩
          · rw [← h3, hcount]
          · rw [← h2]
          · rw [← h2]
            dsimp only
            rw [getS_updS_self, hcat]
            simpa using getS_setS_self cat key newValue
          · rw [← h2]
          · rw [← h2]
          · rw [← h2]
          · rw [hcount, ← h2]

/-- Witness state for the amended C2 (spec scenario: `.hero` uses the
`colors.bg` value). -/
def stHero : St := stIdem

/-- Witness for the amended C2 at a concrete input: propagating
`colors.bg: #fff → #000` rewrites `.hero { color: #fff }` and reports one
changed selector. -/
theorem updateTokenWithPropagation_spec_witness :
    1 = changedCount stHero "#fff" ∧
    [DeltaKind.tokensSet, DeltaKind.stylesBatch] = DeltaKind.tokensSet ::
      (if changedCount stHero "#fff" > 0 then [DeltaKind.stylesBatch] else []) ∧
    stIdem1.styles = stHero.styles.map (fun sp => (sp.1, sp.2.map fun pv =>
      (pv.1, replaceTokenValue "#fff" "#000" pv.2))) ∧
    ((getS stIdem1.designTokens "colors").bind fun cat => getS cat "bg")
      = some "#000" := by
  have h := ((updateTokenWithPropagation_spec stHero "colors" "bg" "#000").2
    "#fff" (by decide)).2 (by decide)
  have h2 := h.2 1 stIdem1 [DeltaKind.tokensSet, DeltaKind.stylesBatch] (by decide)
  exact ⟨h2.1, h2.2.1, h2.2.2.1, h2.2.2.2.1⟩

/-! ### Claim C4 — split-file serialize/deserialize round trip -/

/-- A `setS`-fold over fresh, pairwise distinct keys is plain appending. -/
theorem foldl_setS_fresh {α : Type} :
    ∀ (l acc : List (String × α)),
      (((acc ++ l).map (·.1)).Nodup) →
      l.foldl (fun a kv => setS a kv.1 kv.2) acc = acc ++ l := by
  intro l
  induction l with
  | nil =>
    intro acc _
    simp
  | cons kv t ih =>
    intro acc hnd
    have hnd2 : (kv.1 :: (acc.map (·.1) ++ t.map (·.1))).Nodup := by
      have hshape : ((acc ++ kv :: t).map (·.1))
          = acc.map (·.1) ++ kv.1 :: t.map (·.1) := by simp
      rw [hshape] at hnd
      exact List.perm_middle.nodup_iff.1 hnd
    have hx : kv.1 ∉ acc.map (·.1) ++ t.map (·.1) := (List.nodup_cons.1 hnd2).1
    have hfresh : getS acc kv.1 = none := by
      rw [getS_eq_none_iff]
      intro hm
      exact hx (List.mem_append.2 (Or.inl hm))
    have hstep : setS acc kv.1 kv.2 = acc ++ [kv] := by
      unfold setS
      rw [if_neg (by simp [hfresh])]
    rw [List.foldl_cons, hstep,
      ih (acc ++ [kv]) (by simpa [List.append_assoc] using hnd)]
    simp

/-- Splitting the element map into per-page files partitions it: the
concatenation of the page filters is a permutation of the original map. -/
theorem pageFilter_flatten_perm :
    ∀ (pids : List String) (l : List (String × Element)),
      pids.Nodup → (∀ kv ∈ l, kv.2.pageId ∈ pids) →
      ((pids.map fun pid => l.filter fun kv => kv.2.pageId = pid).flatten).Perm l := by
  intro pids
  induction pids with
  | nil =>
    intro l _ hmem
    cases l with
    | nil => simp
    | cons kv t => exact absurd (hmem kv (by simp)) (by simp)
  | cons p ps ih =>
    intro l hnd hmem
    rw [List.map_cons, List.flatten_cons]
    have hnd' := List.nodup_cons.1 hnd
    have htail : ∀ pid ∈ ps,
        l.filter (fun kv => kv.2.pageId = pid)
        = (l.filter fun kv => kv.2.pageId ≠ p).filter
            (fun kv => kv.2.pageId = pid) := by
      intro pid hpid
      have hpne : pid ≠ p := fun hpp => hnd'.1 (hpp ▸ hpid)
      rw [List.filter_filter]
      apply List.filter_congr
      intro kv _
      by_cases hk : kv.2.pageId = pid
      · simp [hk, hpne]
      · simp [hk]
    rw [List.map_congr_left htail]
    have hih := ih (l.filter fun kv => kv.2.pageId ≠ p) hnd'.2 ?_
    · have h1 := List.Perm.append_left (l.filter fun kv => kv.2.pageId = p) hih
      refine h1.trans ?_
      have hshape : (l.filter fun kv => kv.2.pageId ≠ p)
          = l.filter fun kv => !(decide (kv.2.pageId = p)) := by
        apply List.filter_congr
        intro kv _
        simp
      rw [hshape]
      exact List.filter_append_perm _ l
    · intro kv hkv
      have hmeml : kv ∈ l := List.mem_of_mem_filter hkv
      have hne : kv.2.pageId ≠ p := by simpa using List.of_mem_filter hkv
      rcases List.mem_cons.1 (hmem kv hmeml) with h | h
      · exact absurd h hne
      · exact h

/-- Folding over a concatenation of lists is the nested fold. -/
theorem foldl_flatten' {α β : Type} :
    ∀ (L : List (List β)) (f : α → β → α) (init : α),
      L.flatten.foldl f init = L.foldl (fun acc l => l.foldl f acc) init := by
  intro L
  induction L with
  | nil => intro f init; rfl
  | cons l ls ih =>
    intro f init
    rw [List.flatten_cons, List.foldl_append, List.foldl_cons, ih]

/-- Reading from an association list is invariant under permutation when
the keys are distinct. -/
theorem getS_mem_of_eq_some {α : Type} {m : List (String × α)} {k : String} {v : α}
    (h : getS m k = some v) : (k, v) ∈ m := by
  induction m with
  | nil => simp [getS] at h
  | cons kv rest ih =>
    by_cases hk : kv.1 = k
    · simp only [getS, hk, if_true, Option.some.injEq] at h
      subst hk h
      exact List.mem_cons_self _ _
    · simp only [getS, hk, if_false] at h
      exact List.mem_cons_of_mem _ (ih h)

theorem getS_eq_some_of_mem_nodup {α : Type} {m : List (String × α)} {k : String}
    {v : α} (hnd : (m.map (·.1)).Nodup) (h : (k, v) ∈ m) : getS m k = some v := by
  induction m with
  | nil => simp at h
  | cons kv rest ih =>
    rcases List.mem_cons.1 h with heq | hmem
    · subst heq
      simp [getS]
    · have hk : kv.1 ≠ k := by
        intro hk
        have : k ∈ rest.map (·.1) := by
          exact List.mem_map.2 ⟨(k, v), hmem, rfl⟩
        rw [List.map_cons, List.nodup_cons, hk] at hnd
        exact hnd.1 this
      simp only [getS, hk, if_false]
      exact ih (List.nodup_cons.1 (by simpa using hnd)).2 hmem

theorem getS_eq_of_perm_nodup {α : Type} {l1 l2 : List (String × α)}
    (hperm : l1.Perm l2) (hnd : (l2.map (·.1)).Nodup) (k : String) :
    getS l1 k = getS l2 k := by
  have hnd1 : (l1.map (·.1)).Nodup := ((hperm.map (·.1)).nodup_iff).2 hnd
  rcases h2 : getS l2 k with _ | v
  · rw [getS_eq_none_iff] at h2 ⊢
    intro hm
    exact h2 ((hperm.map (·.1)).mem_iff.1 hm)
  · exact getS_eq_some_of_mem_nodup hnd1 (hperm.mem_iff.2 (getS_mem_of_eq_some h2))

/-- Claim C4: writing the split layout (project metadata + tokens, styles,
one file per page with its owned elements) and loading it back
reconstructs the state: project metadata, styles, tokens and the page map
are restored exactly, the flat element map up to key order. -/
theorem splitFiles_roundtrip :
    ∀ s : St,
      (s.pages.map (·.1)).Nodup →
      (∀ kv ∈ s.pages, (kv.2 : Page).id = kv.1) →
      (s.elements.map (·.1)).Nodup →
      (∀ kv ∈ s.elements, (kv.2 : Element).pageId ∈ s.pages.map (·.1)) →
      (loadSplitFiles (writeSplitFiles s)).project = s.project ∧
      (loadSplitFiles (writeSplitFiles s)).styles = s.styles ∧
      (loadSplitFiles (writeSplitFiles s)).designTokens = s.designTokens ∧
      (loadSplitFiles (writeSplitFiles s)).pages = s.pages ∧
      ((loadSplitFiles (writeSplitFiles s)).elements).Perm s.elements ∧
      (∀ k, getS (loadSplitFiles (writeSplitFiles s)).elements k
        = getS s.elements k) := by
  intro s hndp hid hnde hmem
  have hflat : ((s.pages.map (·.1)).map
        (fun pid => s.elements.filter fun kv => kv.2.pageId = pid)).flatten.Perm
      s.elements :=
    pageFilter_flatten_perm (s.pages.map (·.1)) s.elements hndp hmem
  have hpagesEq : (loadSplitFiles (writeSplitFiles s)).pages = s.pages := by
    unfold loadSplitFiles writeSplitFiles
    dsimp only
    rw [← List.foldl_map (fun pfl : PageFile => (pfl.page.id, pfl.page))
      (fun a kv => setS a kv.1 kv.2)]
    rw [List.map_map]
    have hmc : s.pages.map
        ((fun pfl : PageFile => (pfl.page.id, pfl.page)) ∘ fun pv =>
          { page := pv.2, elements := s.elements.filter fun kv => kv.2.pageId = pv.1 })
        = s.pages := by
      have : ∀ pv ∈ s.pages,
          ((fun pfl : PageFile => (pfl.page.id, pfl.page)) ∘ fun pv =>
            ({ page := pv.2,
               elements := s.elements.filter fun kv => kv.2.pageId = pv.1 } : PageFile)) pv
          = id pv := by
        intro pv hpv
        simp only [Function.comp, id]
        rw [hid pv hpv]
      rw [List.map_congr_left this, List.map_id]
    rw [hmc]
    exact foldl_setS_fresh s.pages [] (by simpa using hndp)
  have helemsEq : (loadSplitFiles (writeSplitFiles s)).elements
      = ((s.pages.map (·.1)).map
          (fun pid => s.elements.filter fun kv => kv.2.pageId = pid)).flatten := by
    unfold loadSplitFiles writeSplitFiles
    dsimp only
    rw [← List.foldl_map (fun pf : PageFile => pf.elements)
      (fun acc l => l.foldl (fun a kv => setS a kv.1 kv.2) acc)]
    rw [← foldl_flatten']
    rw [List.map_map]
    have hmc : s.pages.map
        ((fun pf : PageFile => pf.elements) ∘ fun pv =>
          ({ page := pv.2,
             elements := s.elements.filter fun kv => kv.2.pageId = pv.1 } : PageFile))
        = (s.pages.map (·.1)).map
            (fun pid => s.elements.filter fun kv => kv.2.pageId = pid) := by
      rw [List.map_map]
      rfl
    rw [hmc]
    apply foldl_setS_fresh
    have hkeys : (((s.pages.map (·.1)).map
        (fun pid => s.elements.filter fun kv => kv.2.pageId = pid)).flatten.map
          (·.1)).Nodup := by
      rw [(hflat.map (·.1)).nodup_iff]
      exact hnde
    simpa using hkeys
  refine ⟨rfl, rfl, rfl, hpagesEq, ?_, ?_⟩
  · rw [helemsEq]
    exact hflat
  · intro k
    rw [helemsEq]
    exact getS_eq_of_perm_nodup hflat hnde k

/-- Witness for C4 at a concrete input: the two-page state round-trips
through the split layout. -/
theorem splitFiles_roundtrip_witness :
    (loadSplitFiles (writeSplitFiles stTwoPages)).project = stTwoPages.project ∧
    (loadSplitFiles (writeSplitFiles stTwoPages)).styles = stTwoPages.styles ∧
    (loadSplitFiles (writeSplitFiles stTwoPages)).designTokens
      = stTwoPages.designTokens ∧
    (loadSplitFiles (writeSplitFiles stTwoPages)).pages = stTwoPages.pages ∧
    ((loadSplitFiles (writeSplitFiles stTwoPages)).elements).Perm
      stTwoPages.elements ∧
    (∀ k, getS (loadSplitFiles (writeSplitFiles stTwoPages)).elements k
      = getS stTwoPages.elements k) :=
  splitFiles_roundtrip stTwoPages (by decide) (by decide) (by decide) (by decide)

/-! ### Claim C5 — `deleteElement` removes exactly the subtree

`descListF` enumerates the ids `_deleteRecursive` would visit (node first,
then the concatenated enumerations of its children), with the same fuel
discipline; it returns `none` when the fuel runs out or a visited id does
not resolve.  A state is a well-formed tree at `id` exactly when this
enumeration succeeds with fuel `elements.length` and is duplicate-free. -/

/-- DFS enumeration of the subtree rooted at `id`. -/
def descListF : Nat → List (String × Element) → String → Option (List String)
  | 0, _, _ => none
  | fuel + 1, m, id =>
    match getS m id with
    | none => none
    | some el =>
      el.children.foldl
        (fun acc c => acc.bind fun ds => (descListF fuel m c).map fun dc => ds ++ dc)
        (some [id])

/-- The child fold of `descListF` propagates failure. -/
theorem descFold_none (fuel : Nat) (m : List (String × Element)) :
    ∀ cs : List String,
      cs.foldl
        (fun acc c => acc.bind fun ds => (descListF fuel m c).map fun dc => ds ++ dc)
        none = none := by
  intro cs
  induction cs with
  | nil => rfl
  | cons c t ih => simpa using ih

/-- The child fold of `descListF` succeeds exactly when every child
enumeration succeeds, and then concatenates them. -/
theorem descFold_eq_some (fuel : Nat) (m : List (String × Element)) :
    ∀ (cs ds0 res : List String),
      (cs.foldl
          (fun acc c => acc.bind fun ds => (descListF fuel m c).map fun dc => ds ++ dc)
          (some ds0) = some res)
      ↔ ∃ dss, List.Forall₂ (fun c dc => descListF fuel m c = some dc) cs dss ∧
          res = ds0 ++ dss.flatten := by
  intro cs
  induction cs with
  | nil =>
    intro ds0 res
    constructor
    · intro h
      exact ⟨[], List.Forall₂.nil, by simpa using (Option.some.inj h).symm⟩
    · rintro ⟨dss, hf, hres⟩
      cases hf
      simp [hres]
  | cons c t ih =>
    intro ds0 res
    rw [List.foldl_cons]
    rcases hd : descListF fuel m c with _ | dc
    · simp only [hd, Option.some_bind, Option.map_none']
      rw [descFold_none]
      constructor
      · intro h
        exact absurd h (by simp)
      · rintro ⟨dss, hf, -⟩
        cases hf with
        | cons hc _ => exact absurd (hd.symm.trans hc) (by simp)
    · simp only [hd, Option.some_bind, Option.map_some']
      rw [ih (ds0 ++ dc) res]
      constructor
      · rintro ⟨dss', hf, hres⟩
        exact ⟨dc :: dss', List.Forall₂.cons hd hf, by simp [hres, List.append_assoc]⟩
      · rintro ⟨dss, hf, hres⟩
        cases hf with
        | cons hc hf' =>
          rename_i dc' dss'
          have : dc' = dc := Option.some.inj (hc.symm.trans hd)
          subst this
          exact ⟨dss', hf', by simp [hres, List.append_assoc]⟩

/-- Reading a key that survives a key-set filter. -/
theorem getS_filter_notin {α : Type} (m : List (String × α)) (S : List String)
    (k : String) :
    getS (m.filter fun kv => kv.1 ∉ S) k = if k ∈ S then none else getS m k := by
  induction m with
  | nil => simp [getS]
  | cons kv rest ih =>
    by_cases hk : kv.1 ∈ S
    · rw [List.filter_cons_of_neg (by simpa using hk), ih]
      by_cases hks : k ∈ S
      · rw [if_pos hks, if_pos hks]
      · rw [if_neg hks, if_neg hks]
        have hne : kv.1 ≠ k := fun h => hks (h ▸ hk)
        simp [getS, hne]
    · rw [List.filter_cons_of_pos (by simpa using hk)]
      by_cases he : kv.1 = k
      · subst he
        rw [if_neg hk]
        simp [getS]
      · simp only [getS, he, if_false]
        rw [ih]

/-- Transport of a family of successful child enumerations to the filtered
map, given that the filter removes nothing the enumerations mention. -/
theorem forall₂_filter_transport (f : Nat)
    (ihf : ∀ (m : List (String × Element)) (c : String) (dc S : List String),
      descListF f m c = some dc → (∀ x ∈ dc, x ∉ S) →
      descListF f (m.filter fun kv => kv.1 ∉ S) c = some dc)
    (m : List (String × Element)) (S : List String) :
    ∀ (cs : List String) (dss : List (List String)),
      List.Forall₂ (fun c dc => descListF f m c = some dc) cs dss →
      (∀ x ∈ dss.flatten, x ∉ S) →
      List.Forall₂ (fun c dc =>
        descListF f (m.filter fun kv => kv.1 ∉ S) c = some dc) cs dss := by
  intro cs dss hf
  induction hf with
  | nil =>
    intro _
    exact List.Forall₂.nil
  | cons hc hrest ihr =>
    rename_i c' dc' cs' dss'
    intro hsub
    refine List.Forall₂.cons (ihf _ _ _ _ hc ?_) (ihr ?_)
    · intro x hx
      exact hsub x (by simp [List.flatten_cons, hx])
    · intro x hx
      exact hsub x (by simp [List.flatten_cons, hx])

/-- Subtree enumerations are stable under deleting keys outside them. -/
theorem descListF_filter :
    ∀ (fuel : Nat) (m : List (String × Element)) (c : String) (dc S : List String),
      descListF fuel m c = some dc → (∀ x ∈ dc, x ∉ S) →
      descListF fuel (m.filter fun kv => kv.1 ∉ S) c = some dc := by
  intro fuel
  induction fuel with
  | zero =>
    intro m c dc S h _
    exact absurd h (by simp [descListF])
  | succ f ih =>
    intro m c dc S h hdisj
    unfold descListF at h ⊢
    split at h
    · exact absurd h (by simp)
    · rename_i el hel
      rw [descFold_eq_some] at h
      obtain ⟨dss, hf, hres⟩ := h
      have hcS : c ∉ S := hdisj c (by simp [hres])
      have hget : getS (m.filter fun kv => kv.1 ∉ S) c = some el := by
        rw [getS_filter_notin]
        simp [hcS, hel]
      split
      · rename_i hnone
        exact absurd (hget.symm.trans hnone) (by simp)
      · rename_i el' hel'
        rw [show el = el' from Option.some.inj (hget.symm.trans hel')] at hf
        rw [descFold_eq_some]
        refine ⟨dss, ?_, hres⟩
        have hsub : ∀ x ∈ dss.flatten, x ∉ S := fun x hx =>
          hdisj x (by simp [hres, hx])
        exact forall₂_filter_transport f
          (fun m c dc S h1 h2 => ih m c dc S h1 h2) m S _ dss hf hsub

/-- The child-deletion fold of `_deleteRecursive`: deleting the (pairwise
disjoint, already-partially-filtered) child subtrees extends the filter. -/
theorem deleteFold_eq_filter (f : Nat)
    (ihm : ∀ (m : List (String × Element)) (c : String) (dc : List String),
      descListF f m c = some dc → dc.Nodup →
      deleteRecursive f m c = m.filter fun kv => kv.1 ∉ dc) :
    ∀ (m : List (String × Element)) (cs : List String) (dss : List (List String)),
      List.Forall₂ (fun c dc => descListF f m c = some dc) cs dss →
      ∀ S : List String, (S ++ dss.flatten).Nodup →
      cs.foldl (fun acc c => deleteRecursive f acc c) (m.filter fun kv => kv.1 ∉ S)
        = m.filter fun kv => kv.1 ∉ (S ++ dss.flatten) := by
  intro m cs dss hf
  induction hf with
  | nil =>
    intro S _
    simp only [List.foldl_nil, List.flatten_nil, List.append_nil]
  | cons hc hrest ihf =>
    rename_i c dc cs' dss'
    intro S hnd
    rw [List.foldl_cons]
    have hnd' : (S ++ dc ++ dss'.flatten).Nodup := by
      simpa [List.flatten_cons, List.append_assoc] using hnd
    have hdisj : ∀ x ∈ dc, x ∉ S := by
      intro x hx hxS
      have h1 := (List.nodup_append.1 hnd).2.2
      exact h1 hxS (by simp [List.flatten_cons, hx])
    have hdcnd : dc.Nodup := by
      have h2 := (List.nodup_append.1 hnd).2.1
      rw [List.flatten_cons] at h2
      exact (List.nodup_append.1 h2).1
    have hframe := descListF_filter f m c dc S hc hdisj
    rw [ihm (m.filter fun kv => kv.1 ∉ S) c dc hframe hdcnd]
    have hcomb : (m.filter fun kv => kv.1 ∉ S).filter (fun kv => kv.1 ∉ dc)
        = m.filter fun kv => kv.1 ∉ (S ++ dc) := by
      rw [List.filter_filter]
      apply List.filter_congr
      intro kv _
      by_cases h1 : kv.1 ∈ S
      · simp [h1]
      · by_cases h2 : kv.1 ∈ dc
        · simp [h1, h2]
        · simp [h1, h2]
    rw [hcomb, ihf (S ++ dc) hnd']
    congr 1
    rw [List.append_assoc, ← List.flatten_cons]

/-- `_deleteRecursive` removes exactly the enumerated subtree. -/
theorem deleteRecursive_eq_filter :
    ∀ (fuel : Nat) (m : List (String × Element)) (id : String) (ds : List String),
      descListF fuel m id = some ds → ds.Nodup →
      deleteRecursive fuel m id = m.filter fun kv => kv.1 ∉ ds := by
  intro fuel
  induction fuel with
  | zero =>
    intro m id ds h _
    exact absurd h (by simp [descListF])
  | succ f ih =>
    intro m id ds h hnd
    unfold descListF at h
    split at h
    · exact absurd h (by simp)
    · rename_i el hel
      rw [descFold_eq_some] at h
      obtain ⟨dss, hf, hres⟩ := h
      have hres' : ds = id :: dss.flatten := by simpa using hres
      subst hres'
      unfold deleteRecursive
      split
      · rename_i hnone
        exact absurd (hel.symm.trans hnone) (by simp)
      · rename_i el' hel'
        rw [show el = el' from Option.some.inj (hel.symm.trans hel')] at hf
        have hm0 : m.filter (fun kv => kv.1 ∉ ([] : List String)) = m := by
          simp
        have hnd0 : (([] : List String) ++ dss.flatten).Nodup := by
          simpa using (List.nodup_cons.1 hnd).2
        have hfold := deleteFold_eq_filter f
          (fun m c dc h1 h2 => ih m c dc h1 h2) m el'.children dss hf [] hnd0
        rw [hm0] at hfold
        simp only [List.nil_append] at hfold
        rw [hfold, List.filter_filter]
        apply List.filter_congr
        intro kv _
        by_cases h1 : kv.1 = id
        · simp [h1]
        · by_cases h2 : kv.1 ∈ dss.flatten
          · simp [h1, h2]
          · simp [h1, h2]

/-- Claim C5: in a well-formed tree (the subtree enumeration from `id`
succeeds within fuel `elements.length` and is duplicate-free, the parent
is outside the subtree and lists `id` exactly once), `deleteElement`
removes `id` with all of its descendants from the node map — nothing else —
and shortens the parent's children list by exactly one; deleting a page
root (`parentId` null) fails with `InvalidOperation` and, the throw coming
before any mutation, changes nothing. -/
theorem deleteElement_spec :
    ∀ (s : St) (id : String) (el : Element),
      getS s.elements id = some el →
      (el.parentId = none → deleteElement s id = .error .invalidOperation) ∧
      (∀ pid pe ds,
        el.parentId = some pid → pid ≠ "" →
        getS s.elements pid = some pe →
        descListF s.elements.length s.elements id = some ds →
        ds.Nodup → pid ∉ ds →
        pe.children.count id = 1 →
        deleteElement s id =
          .ok ({ s with
                  elements := updS (s.elements.filter fun kv => kv.1 ∉ ds) pid
                    (fun p => { p with children := p.children.filter (· ≠ id) })
                  dirty := { s.dirty with pages := addSet s.dirty.pages el.pageId } },
               [DeltaKind.elementDeleted]) ∧
        (∀ x ∈ ds,
          getS (updS (s.elements.filter fun kv => kv.1 ∉ ds) pid
            (fun p => { p with children := p.children.filter (· ≠ id) })) x = none) ∧
        getS (updS (s.elements.filter fun kv => kv.1 ∉ ds) pid
            (fun p => { p with children := p.children.filter (· ≠ id) })) pid
          = some { pe with children := pe.children.filter (· ≠ id) } ∧
        (pe.children.filter (· ≠ id)).length + 1 = pe.children.length) := by
  intro s id el hel
  constructor
  · intro hroot
    unfold deleteElement
    split
    · rename_i hnone
      exact absurd (hel.symm.trans hnone) (by simp)
    · rename_i el' hel'
      rw [show el' = el from Option.some.inj (hel.symm.trans hel').symm, hroot]
  · intro pid pe ds hpid hpne hpe hdesc hnd hpds hcount
    have hgp : getS (s.elements.filter fun kv => kv.1 ∉ ds) pid = some pe := by
      rw [getS_filter_notin]
      simp [hpds, hpe]
    refine ⟨?_, ?_, ?_, ?_⟩
    · unfold deleteElement
      split
      · rename_i hnone
        exact absurd (hel.symm.trans hnone) (by simp)
      · rename_i el' hel'
        rw [show el' = el from Option.some.inj (hel.symm.trans hel').symm, hpid]
        dsimp only
        rw [if_neg hpne]
        rw [deleteRecursive_eq_filter s.elements.length s.elements id ds hdesc hnd]
        split
        · rename_i hnone
          exact absurd (hgp.symm.trans hnone) (by simp)
        · rfl
    · intro x hx
      have hxp : x ≠ pid := fun h => hpds (h ▸ hx)
      rw [getS_updS_ne _ _ _ _ hxp, getS_filter_notin]
      simp [hx]
    · rw [getS_updS_self, hgp]
      rfl
    · have := length_filter_ne_add_count pe.children id
      omega

/-- Chain element `a → b` for the C5 witness. -/
def elAChain : Element := { elA0 with children := ["b"] }

/-- Leaf element `b` for the C5 witness. -/
def elBLeaf : Element :=
  { id := "b", tag := "span", classes := [], attributes := [],
    textContent := some "hi", children := [], parentId := some "a",
    pageId := "page-1" }

/-- Witness state for C5: `root-1 → a → b`. -/
def stDel : St :=
  { project := projHome
    pages := [("page-1", pgHome)]
    elements := [("root-1", elRoot), ("a", elAChain), ("b", elBLeaf)]
    styles := []
    designTokens := [("colors", []), ("fonts", []), ("spacing", [])]
    dirty := Dirty.clean }

/-- Witness for C5 at a concrete input: deleting `a` removes `a` and its
descendant `b` and shortens the root's children by one. -/
theorem deleteElement_spec_witness :
    deleteElement stDel "a" =
      .ok ({ stDel with
              elements := updS (stDel.elements.filter fun kv => kv.1 ∉ ["a", "b"])
                "root-1" (fun p => { p with children := p.children.filter (· ≠ "a") })
              dirty := { stDel.dirty with pages := addSet stDel.dirty.pages "page-1" } },
           [DeltaKind.elementDeleted]) ∧
    (∀ x ∈ ["a", "b"],
      getS (updS (stDel.elements.filter fun kv => kv.1 ∉ ["a", "b"]) "root-1"
        (fun p => { p with children := p.children.filter (· ≠ "a") })) x = none) ∧
    getS (updS (stDel.elements.filter fun kv => kv.1 ∉ ["a", "b"]) "root-1"
        (fun p => { p with children := p.children.filter (· ≠ "a") })) "root-1"
      = some { elRoot with children := elRoot.children.filter (· ≠ "a") } ∧
    (elRoot.children.filter (· ≠ "a")).length + 1 = elRoot.children.length := by
  have h := (deleteElement_spec stDel "a" elAChain (by decide)).2 "root-1" elRoot
    ["a", "b"] (by decide) (by decide) (by decide) (by decide) (by decide)
    (by decide) (by decide)
  exact ⟨h.1.trans (by decide), h.2.1, h.2.2.1, h.2.2.2⟩

/-! ### Claim C3 — one delta event and one dirty marking per mutation

The claim fails on `updateTokenWithPropagation`: its `oldValue ===
newValue` early return emits **no** event and marks nothing dirty, and its
propagating path emits **two** events (token delta plus styles batch). -/

/-- Counterexample to C3 as stated: a successful token operation (the
no-op path of `updateTokenWithPropagation`) that emits no delta event and
marks no partition dirty. -/
theorem applyOp_single_delta_counterexample :
    applyOp (.updateToken "colors" "bg" "#fff") stIdem = .ok (stIdem, []) ∧
    stIdem.dirty = Dirty.clean := by
  decide

/-- Number of delta events each operation emits on success (`1` for every
operation except `updateTokenWithPropagation`, which emits none on its
no-op path and two when propagation changed at least one selector). -/
def expectedEvents (op : Op) (s : St) : Nat :=
  match op with
  | .updateToken category key newValue =>
    ((getS s.designTokens category).bind fun cat => getS cat key).elim 1
      fun old =>
        if old = newValue then 0
        else if changedCount s old > 0 then 2 else 1
  | _ => 1

/-- The dirty partitions each operation marks on success. -/
def expectedDirty (op : Op) (s : St) : Dirty :=
  match op with
  | .createNode _ a =>
    (getS s.elements a.parentId).elim s.dirty
      fun parent => { s.dirty with pages := addSet s.dirty.pages parent.pageId }
  | .updateNode a =>
    (getS s.elements a.id).elim s.dirty
      fun el => { s.dirty with pages := addSet s.dirty.pages el.pageId }
  | .deleteNode id =>
    (getS s.elements id).elim s.dirty
      fun el => { s.dirty with pages := addSet s.dirty.pages el.pageId }
  | .moveNode id newParentId _ =>
    (getS s.elements id).elim s.dirty fun el =>
      (getS s.elements newParentId).elim s.dirty fun np =>
        { s.dirty with
            pages :=
              if el.pageId ≠ np.pageId then
                addSet (addSet s.dirty.pages el.pageId) np.pageId
              else addSet s.dirty.pages el.pageId }
  | .createPage f1 _ _ =>
    { s.dirty with pages := addSet s.dirty.pages ("page-" ++ f1) }
  | .clonePage _ _ fp _ =>
    { s.dirty with pages := addSet s.dirty.pages ("page-" ++ fp) }
  | .deletePage pid =>
    { s.dirty with
        project := if s.project.activePageId = pid then true else s.dirty.project
        deletedPages := addSet s.dirty.deletedPages pid }
  | .renamePage pid _ => { s.dirty with pages := addSet s.dirty.pages pid }
  | .setActivePage _ => { s.dirty with project := true }
  | .setStyles _ _ => { s.dirty with styles := true }
  | .batchSetStyles _ => { s.dirty with styles := true }
  | .deleteStyles _ => { s.dirty with styles := true }
  | .setDesignTokens _ _ => { s.dirty with project := true }
  | .updateToken category key newValue =>
    ((getS s.designTokens category).bind fun cat => getS cat key).elim s.dirty
      fun old =>
        if old = newValue then s.dirty
        else { s.dirty with
                project := true
                styles := if changedCount s old > 0 then true else s.dirty.styles }
  | .setViewport _ _ _ => { s.dirty with project := true }

/-- Claim C3 as amended: every mutating operation, on success, emits
exactly one delta event and marks its owning partition(s) dirty — except
`updateTokenWithPropagation`, which emits no event (and marks nothing)
when the new value equals the old, and emits a second styles-batch delta
(also marking the styles partition) when propagation changed at least one
selector. -/
theorem applyOp_delta_dirty_spec :
    ∀ (op : Op) (s s' : St) (evs : List DeltaKind),
      applyOp op s = .ok (s', evs) →
      evs.length = expectedEvents op s ∧ s'.dirty = expectedDirty op s := by
  intro op s s' evs h
  cases op with
  | createNode freshId a =>
    simp only [applyOp] at h
    unfold createElement at h
    split at h
    · simp [Except.map] at h
    · rename_i parent hp
      simp only [Except.map, Except.ok.injEq, Prod.mk.injEq] at h
      obtain ⟨h1, h2⟩ := h
      refine ⟨by rw [← h2]; rfl, ?_⟩
      rw [← h1]
      simp only [expectedDirty, hp, Option.elim]
  | updateNode a =>
    simp only [applyOp] at h
    unfold updateElement at h
    split at h
    · simp [Except.map] at h
    · rename_i el0 hp
      simp only [Except.map, Except.ok.injEq, Prod.mk.injEq] at h
      obtain ⟨h1, h2⟩ := h
      refine ⟨by rw [← h2]; rfl, ?_⟩
      rw [← h1]
      simp only [expectedDirty, hp, Option.elim]
  | deleteNode id =>
    simp only [applyOp] at h
    unfold deleteElement at h
    split at h
    · simp at h
    · rename_i el hp
      split at h
      · simp at h
      · rename_i pid hpid
        split at h
        · simp at h
        · simp only [Except.ok.injEq, Prod.mk.injEq] at h
          obtain ⟨h1, h2⟩ := h
          refine ⟨by rw [← h2]; rfl, ?_⟩
          rw [← h1]
          simp only [expectedDirty, hp, Option.elim]
  | moveNode id newParentId insertIndex =>
    simp only [applyOp] at h
    unfold moveElement at h
    split at h
    · simp [Except.map] at h
    · rename_i el hp
      split at h
      · simp [Except.map] at h
      · rename_i oldParentId hopid
        split at h
        · simp [Except.map] at h
        · split at h
          · simp [Except.map] at h
          · rename_i np hnp
            simp only [Except.map, Except.ok.injEq, Prod.mk.injEq] at h
            obtain ⟨h1, h2⟩ := h
            refine ⟨by rw [← h2]; rfl, ?_⟩
            rw [← h1]
            simp only [expectedDirty, hp, hnp, Option.elim]
  | createPage f1 f2 name =>
    simp only [applyOp] at h
    unfold GhostCanvas.createPage at h
    simp only [Except.map, Except.ok.injEq, Prod.mk.injEq] at h
    obtain ⟨h1, h2⟩ := h
    exact ⟨by rw [← h2]; rfl, by rw [← h1]; rfl⟩
  | clonePage src nm fp fids =>
    simp only [applyOp] at h
    unfold GhostCanvas.clonePage at h
    split at h
    · simp [Except.map] at h
    · simp only [Except.map, Except.ok.injEq, Prod.mk.injEq] at h
      obtain ⟨h1, h2⟩ := h
      exact ⟨by rw [← h2]; rfl, by rw [← h1]; rfl⟩
  | deletePage pid =>
    simp only [applyOp] at h
    unfold GhostCanvas.deletePage at h
    split at h
    · simp at h
    · split at h
      · simp at h
      · simp only [Except.ok.injEq, Prod.mk.injEq] at h
        obtain ⟨h1, h2⟩ := h
        exact ⟨by rw [← h2]; rfl, by rw [← h1]; rfl⟩
  | renamePage pid name =>
    simp only [applyOp] at h
    unfold GhostCanvas.renamePage at h
    split at h
    · simp [Except.map] at h
    · simp only [Except.map, Except.ok.injEq, Prod.mk.injEq] at h
      obtain ⟨h1, h2⟩ := h
      exact ⟨by rw [← h2]; rfl, by rw [← h1]; rfl⟩
  | setActivePage pid =>
    simp only [applyOp] at h
    unfold GhostCanvas.setActivePage at h
    split at h
    · simp at h
    · simp only [Except.ok.injEq, Prod.mk.injEq] at h
      obtain ⟨h1, h2⟩ := h
      exact ⟨by rw [← h2]; rfl, by rw [← h1]; rfl⟩
  | setStyles sel props =>
    simp only [applyOp] at h
    unfold GhostCanvas.setStyles at h
    simp only [Except.map, Except.ok.injEq, Prod.mk.injEq] at h
    obtain ⟨h1, h2⟩ := h
    exact ⟨by rw [← h2]; rfl, by rw [← h1]; rfl⟩
  | batchSetStyles styles =>
    simp only [applyOp] at h
    unfold GhostCanvas.batchSetStyles at h
    simp only [Except.ok.injEq, Prod.mk.injEq] at h
    obtain ⟨h1, h2⟩ := h
    exact ⟨by rw [← h2]; rfl, by rw [← h1]; rfl⟩
  | deleteStyles sel =>
    simp only [applyOp] at h
    unfold GhostCanvas.deleteStyles at h
    split at h
    · simp at h
    · simp only [Except.ok.injEq, Prod.mk.injEq] at h
      obtain ⟨h1, h2⟩ := h
      exact ⟨by rw [← h2]; rfl, by rw [← h1]; rfl⟩
  | setDesignTokens cat toks =>
    simp only [applyOp] at h
    unfold GhostCanvas.setDesignTokens at h
    simp only [Except.map, Except.ok.injEq, Prod.mk.injEq] at h
    obtain ⟨h1, h2⟩ := h
    exact ⟨by rw [← h2]; rfl, by rw [← h1]; rfl⟩
  | updateToken category key newValue =>
    simp only [applyOp] at h
    unfold updateTokenWithPropagation at h
    split at h
    · simp [Except.map] at h
    · rename_i old hsome
      split at h
      · rename_i he
        simp only [Except.map, Except.ok.injEq, Prod.mk.injEq] at h
        obtain ⟨h1, h2⟩ := h
        constructor
        · rw [← h2]
          simp [expectedEvents, hsome, Option.elim, he]
        · rw [← h1]
          simp [expectedDirty, hsome, Option.elim, he]
      · rename_i he
        rw [updateToken_scan_characterization s.styles old newValue 0 []] at h
        simp only [Nat.zero_add, List.nil_append, Except.map, Except.ok.injEq,
          Prod.mk.injEq] at h
        obtain ⟨h1, h2⟩ := h
        have hcc : changedCount s old
            = s.styles.countP (fun sp => sp.2.any fun pv => hasTokenMatch old pv.2) := rfl
        constructor
        · rw [← h2]
          simp only [expectedEvents, hsome, Option.elim, if_neg he, hcc]
          by_cases hgt : 0 < s.styles.countP
              (fun sp => sp.2.any fun pv => hasTokenMatch old pv.2)
          · simp [hgt]
          · simp [hgt]
        · rw [← h1]
          simp only [expectedDirty, hsome, Option.elim, if_neg he, hcc]
  | setViewport device width height =>
    simp only [applyOp] at h
    unfold GhostCanvas.setViewport at h
    simp only [Except.map, Except.ok.injEq, Prod.mk.injEq] at h
    obtain ⟨h1, h2⟩ := h
    exact ⟨by rw [← h2]; rfl, by rw [← h1]; rfl⟩

/-- The C1 scenario state after renaming its page: the concrete success
output used to witness the delta/dirty accounting theorem. -/
def stRenamed : St :=
  { stMove with
      pages := [("page-1", { pgHome with name := "Landing" })]
      dirty := { Dirty.clean with pages := ["page-1"] } }

/-- Witness for the delta/dirty accounting theorem: renaming the page of
the one-page scenario state succeeds with one `delta:page:renamed` event
and marks exactly that page dirty. -/
theorem applyOp_delta_dirty_spec_witness :
    [DeltaKind.pageRenamed].length
        = expectedEvents (.renamePage "page-1" "Landing") stMove ∧
    stRenamed.dirty = expectedDirty (.renamePage "page-1" "Landing") stMove :=
  applyOp_delta_dirty_spec (.renamePage "page-1" "Landing") stMove stRenamed
    [DeltaKind.pageRenamed] (by decide)

end GhostCanvas
